import Mathlib

/-!
A shallow embedding of the ggml tensor library (`src/ggml.c`) together with
proofs about its graph builder, reverse-mode autodiff, arena allocator and
forward kernels.

Modelling conventions:
* machine integers (`int`, `size_t`) are embedded as `Nat`;
* `float` payloads are embedded as exact rationals `ℚ` (the scenarios proved
  here involve only small integers whose IEEE-754 arithmetic is exact), and
  the transcendental ROPE kernel is embedded over an abstract commutative
  ring together with abstract `cos`/`sin`/power functions that the theorems
  instantiate with `Real.cos`/`Real.sin`/`Real.rpow`;
* tensor handles (`struct ggml_tensor *`) are indices into an append-only
  pool (`Pool`), mirroring the arena: constructors append, so every source
  index of a tensor is strictly smaller than the tensor's own index;
* a C `assert(false)` is embedded as `Except.error ()` (respectively as a
  `none` result for the allocator, which in release mode returns `NULL`
  without mutating the context).
-/

namespace GgmlSpec

/-- Element types, `enum ggml_type` of `ggml.h`. -/
inductive GgmlType
  | I8 | I16 | I32 | F16 | F32
  deriving DecidableEq, Repr

/-- `GGML_TYPE_SIZE[]` (ggml.c line 993): byte size of one element. -/
def GGML_TYPE_SIZE : GgmlType → Nat
  | .I8 => 1
  | .I16 => 2
  | .I32 => 4
  | .F16 => 2
  | .F32 => 4

/-- Opcodes, `enum ggml_op`, in source order. -/
inductive GgmlOp
  | NONE
  | DUP | ADD | SUB | MUL | DIV | SQR | SQRT | SUM | MEAN | REPEAT
  | ABS | SGN | NEG | STEP | RELU | GELU | NORM
  | MUL_MAT | SCALE | CPY | RESHAPE | VIEW | PERMUTE | TRANSPOSE
  | GET_ROWS | DIAG_MASK_INF | SOFT_MAX | ROPE
  | CONV_1D_1S | CONV_1D_2S | FLASH_ATTN | FLASH_FF
  deriving DecidableEq, Repr

/-- `struct ggml_tensor` (ggml.h): shape metadata, opcode, graph links and —
for the scalar autodiff scenarios proved below — the single `ℚ` payload of a
one-element `F32` tensor (`value`).  `grad`, `src0`, `src1`, `opt0..3` are
tensor handles, i.e. indices into the pool, `none` embedding `NULL`. -/
structure GTensor where
  type : GgmlType := .F32
  n_dims : Nat := 1
  ne0 : Nat := 1
  ne1 : Nat := 1
  ne2 : Nat := 1
  ne3 : Nat := 1
  nb0 : Nat := 0
  nb1 : Nat := 0
  nb2 : Nat := 0
  nb3 : Nat := 0
  op : GgmlOp := .NONE
  is_param : Bool := false
  grad : Option Nat := none
  src0 : Option Nat := none
  src1 : Option Nat := none
  opt0 : Option Nat := none
  opt1 : Option Nat := none
  opt2 : Option Nat := none
  opt3 : Option Nat := none
  value : ℚ := 0
  deriving DecidableEq, Repr

/-- The tensors of a context, in allocation order; a handle is a position. -/
abbrev Pool := List GTensor

/-- Dereference a handle.  Out-of-range handles (never produced by the
constructors) yield the all-default tensor. -/
def getT (p : Pool) (i : Nat) : GTensor := p.getD i {}

/-- Replace the tensor at index `i` by `f` of it. -/
def setT : Pool → Nat → (GTensor → GTensor) → Pool
  | [], _, _ => []
  | t :: ts, 0, f => f t :: ts
  | t :: ts, i + 1, f => t :: setT ts i f

/-- `ggml_is_scalar` (ggml.c line 1198). -/
def ggml_is_scalar (t : GTensor) : Prop :=
  t.ne0 = 1 ∧ t.ne1 = 1 ∧ t.ne2 = 1 ∧ t.ne3 = 1

/-- `ggml_can_mul_mat` (ggml.c line 1216). -/
def ggml_can_mul_mat (t0 t1 : GTensor) : Prop :=
  t0.ne0 = t1.ne0 ∧ t0.ne2 = t1.ne2 ∧ t0.ne3 = t1.ne3

/-- `ggml_are_same_shape` (ggml.c line 1244). -/
def ggml_are_same_shape (t0 t1 : GTensor) : Prop :=
  t0.ne0 = t1.ne0 ∧ t0.ne1 = t1.ne1 ∧ t0.ne2 = t1.ne2 ∧ t0.ne3 = t1.ne3

/-- `ggml_can_repeat` (ggml.c line 1255). -/
def ggml_can_repeat (t0 t1 : GTensor) : Prop :=
  t1.ne0 % t0.ne0 = 0 ∧ t1.ne1 % t0.ne1 = 0 ∧
  t1.ne2 % t0.ne2 = 0 ∧ t1.ne3 % t0.ne3 = 0

instance (t : GTensor) : Decidable (ggml_is_scalar t) := by
  unfold ggml_is_scalar; infer_instance

instance (t0 t1 : GTensor) : Decidable (ggml_can_mul_mat t0 t1) := by
  unfold ggml_can_mul_mat; infer_instance

instance (t0 t1 : GTensor) : Decidable (ggml_are_same_shape t0 t1) := by
  unfold ggml_are_same_shape; infer_instance

instance (t0 t1 : GTensor) : Decidable (ggml_can_repeat t0 t1) := by
  unfold ggml_can_repeat; infer_instance

/-- `ggml_new_tensor_impl` (ggml.c line 1398) at the graph level: append a
fresh tensor header with the requested type and the first `n_dims` extents of
`ne` (the remaining extents stay 1), strides per the contiguous product rule
(lines 1480-1483).  Arena byte accounting is modelled separately below. -/
def ggml_new_tensor_impl (p : Pool) (type : GgmlType) (n_dims : Nat)
    (ne : List Nat) (value : ℚ) : Pool × Nat :=
  let e0 := if 0 < n_dims then ne.getD 0 1 else 1
  let e1 := if 1 < n_dims then ne.getD 1 1 else 1
  let e2 := if 2 < n_dims then ne.getD 2 1 else 1
  let e3 := if 3 < n_dims then ne.getD 3 1 else 1
  let b0 := GGML_TYPE_SIZE type
  let b1 := b0 * e0
  let b2 := b1 * e1
  let b3 := b2 * e2
  let t : GTensor :=
    { type := type, n_dims := n_dims,
      ne0 := e0, ne1 := e1, ne2 := e2, ne3 := e3,
      nb0 := b0, nb1 := b1, nb2 := b2, nb3 := b3,
      op := .NONE, is_param := false, grad := none,
      src0 := none, src1 := none, value := value }
  (p ++ [t], p.length)

/-- `ggml_new_tensor` (ggml.c line 1490). -/
def ggml_new_tensor (p : Pool) (type : GgmlType) (n_dims : Nat)
    (ne : List Nat) : Pool × Nat :=
  ggml_new_tensor_impl p type n_dims ne 0

/-- `ggml_new_tensor_1d` (ggml.c line 1498). -/
def ggml_new_tensor_1d (p : Pool) (type : GgmlType) (ne0 : Nat) : Pool × Nat :=
  ggml_new_tensor p type 1 [ne0]

/-- `ggml_dup_tensor` (ggml.c line 1551): fresh tensor of the same type and
shape; the payload is not copied (fresh data, modelled as value 0). -/
def ggml_dup_tensor (p : Pool) (src : Nat) : Pool × Nat :=
  let s := getT p src
  ggml_new_tensor_impl p s.type s.n_dims [s.ne0, s.ne1, s.ne2, s.ne3] 0

/-- `ggml_view_tensor` (ggml.c line 1813): same type and shape, `data`
aliases `src` — modelled by copying the scalar payload. -/
def ggml_view_tensor (p : Pool) (src : Nat) : Pool × Nat :=
  let s := getT p src
  ggml_new_tensor_impl p s.type s.n_dims [s.ne0, s.ne1, s.ne2, s.ne3] s.value

/-- `ggml_set_f32` (ggml.c line 1612) on a one-element tensor. -/
def ggml_set_f32 (p : Pool) (i : Nat) (v : ℚ) : Pool :=
  setT p i (fun t => { t with value := v })

/-- `ggml_new_f32` (ggml.c line 1543). -/
def ggml_new_f32 (p : Pool) (v : ℚ) : Pool × Nat :=
  let (p1, r) := ggml_new_tensor_1d p .F32 1
  (ggml_set_f32 p1 r v, r)

/-- `ggml_set_param` (ggml.c line 2959): mark differentiable and allocate
the gradient tensor. -/
def ggml_set_param (p : Pool) (i : Nat) : Pool :=
  let p1 := setT p i (fun t => { t with is_param := true })
  let (p2, gi) := ggml_dup_tensor p1 i
  setT p2 i (fun t => { t with grad := some gi })

/-- Shared tail of every operator constructor: allocate `result` as a view
(inplace) or duplicate of `a`, allocate its gradient when `is_node`, then
fill in `op`, `src0`, `src1`. -/
def mkUnary (p : Pool) (a : Nat) (inplace : Bool) (is_node : Bool)
    (op : GgmlOp) (s1 : Option Nat) : Pool × Nat :=
  let (p1, result) := if inplace then ggml_view_tensor p a else ggml_dup_tensor p a
  let (p2, g) :=
    if is_node then
      let (q, gi) := ggml_dup_tensor p1 result
      (q, some gi)
    else (p1, none)
  (setT p2 result (fun t =>
    { t with op := op, grad := g, src0 := some a, src1 := s1 }), result)

/-- `ggml_add_impl` (ggml.c line 1857).  The shape assertion
`ggml_are_same_shape(a, b)` holds at every call site modelled here. -/
def ggml_add_impl (p : Pool) (a b : Nat) (inplace : Bool) : Pool × Nat :=
  let is_node := !inplace && ((getT p a).grad.isSome || (getT p b).grad.isSome)
  mkUnary p a inplace is_node .ADD (some b)

/-- `ggml_sub_impl` (ggml.c line 1896). -/
def ggml_sub_impl (p : Pool) (a b : Nat) (inplace : Bool) : Pool × Nat :=
  let is_node := !inplace && ((getT p a).grad.isSome || (getT p b).grad.isSome)
  mkUnary p a inplace is_node .SUB (some b)

/-- `ggml_mul_impl` (ggml.c line 1935). -/
def ggml_mul_impl (p : Pool) (a b : Nat) (inplace : Bool) : Pool × Nat :=
  let is_node := !inplace && ((getT p a).grad.isSome || (getT p b).grad.isSome)
  mkUnary p a inplace is_node .MUL (some b)

/-- `ggml_mul` (ggml.c line 1962). -/
def ggml_mul (p : Pool) (a b : Nat) : Pool × Nat := ggml_mul_impl p a b false

/-- `ggml_div_impl` (ggml.c line 1978). -/
def ggml_div_impl (p : Pool) (a b : Nat) (inplace : Bool) : Pool × Nat :=
  let is_node := !inplace && ((getT p a).grad.isSome || (getT p b).grad.isSome)
  mkUnary p a inplace is_node .DIV (some b)

/-- `ggml_div` (ggml.c line 2005). -/
def ggml_div (p : Pool) (a b : Nat) : Pool × Nat := ggml_div_impl p a b false

/-- `ggml_sqr_impl` (ggml.c line 2021). -/
def ggml_sqr_impl (p : Pool) (a : Nat) (inplace : Bool) : Pool × Nat :=
  let is_node := !inplace && (getT p a).grad.isSome
  mkUnary p a inplace is_node .SQR none

/-- `ggml_sqr` (ggml.c line 2041). -/
def ggml_sqr (p : Pool) (a : Nat) : Pool × Nat := ggml_sqr_impl p a false

/-- `ggml_sum` (ggml.c line 2089): scalar result of `a`'s type. -/
def ggml_sum (p : Pool) (a : Nat) : Pool × Nat :=
  let is_node := (getT p a).grad.isSome
  let (p1, result) := ggml_new_tensor_1d p (getT p a).type 1
  let (p2, g) :=
    if is_node then
      let (q, gi) := ggml_dup_tensor p1 result
      (q, some gi)
    else (p1, none)
  (setT p2 result (fun t =>
    { t with op := .SUM, grad := g, src0 := some a, src1 := none }), result)

/-- `ggml_repeat` (ggml.c line 2133).  The `ggml_can_repeat(a, b)` assertion
holds at every call site modelled here.  When `a` and `b` already have the
same shape and `a` carries no gradient, the handle `a` itself is returned
and nothing is allocated. -/
def ggml_repeat (p : Pool) (a b : Nat) : Pool × Nat :=
  let is_node := (getT p a).grad.isSome
  if ggml_are_same_shape (getT p a) (getT p b) ∧ is_node = false then
    (p, a)
  else
    let tb := getT p b
    let (p1, result) :=
      ggml_new_tensor p (getT p a).type tb.n_dims [tb.ne0, tb.ne1, tb.ne2, tb.ne3]
    let (p2, g) :=
      if is_node then
        let (q, gi) := ggml_dup_tensor p1 result
        (q, some gi)
      else (p1, none)
    (setT p2 result (fun t =>
      { t with op := .REPEAT, grad := g, src0 := some a, src1 := none }), result)

/-- `ggml_sgn_impl` (ggml.c line 2196). -/
def ggml_sgn_impl (p : Pool) (a : Nat) (inplace : Bool) : Pool × Nat :=
  let is_node := !inplace && (getT p a).grad.isSome
  mkUnary p a inplace is_node .SGN none

/-- `ggml_sgn` (ggml.c line 2216). -/
def ggml_sgn (p : Pool) (a : Nat) : Pool × Nat := ggml_sgn_impl p a false

/-- `ggml_step_impl` (ggml.c line 2264). -/
def ggml_step_impl (p : Pool) (a : Nat) (inplace : Bool) : Pool × Nat :=
  let is_node := !inplace && (getT p a).grad.isSome
  mkUnary p a inplace is_node .STEP none

/-- `ggml_step` (ggml.c line 2284). -/
def ggml_step (p : Pool) (a : Nat) : Pool × Nat := ggml_step_impl p a false

/-- `ggml_relu_impl` (ggml.c line 2298). -/
def ggml_relu_impl (p : Pool) (a : Nat) (inplace : Bool) : Pool × Nat :=
  let is_node := !inplace && (getT p a).grad.isSome
  mkUnary p a inplace is_node .RELU none

/-- `ggml_relu` (ggml.c line 2318). -/
def ggml_relu (p : Pool) (a : Nat) : Pool × Nat := ggml_relu_impl p a false

/-- `ggml_mul_mat` (ggml.c line 2401): result is `F32` with
`ne = {a.ne[1], b.ne[1], a.ne[2], b.ne[3]}` truncated to
`min(a.n_dims, b.n_dims)` dimensions (the extents beyond `n_dims` stay 1,
exactly as `ggml_new_tensor_impl` leaves them).  The
`ggml_can_mul_mat(a, b)` assertion holds at every call site modelled
here. -/
def ggml_mul_mat (p : Pool) (a b : Nat) : Pool × Nat :=
  let ta := getT p a
  let tb := getT p b
  let is_node := ta.grad.isSome || tb.grad.isSome
  let (p1, result) :=
    ggml_new_tensor p .F32 (min ta.n_dims tb.n_dims) [ta.ne1, tb.ne1, ta.ne2, tb.ne3]
  let (p2, g) :=
    if is_node then
      let (q, gi) := ggml_dup_tensor p1 result
      (q, some gi)
    else (p1, none)
  (setT p2 result (fun t =>
    { t with op := .MUL_MAT, grad := g, src0 := some a, src1 := some b }), result)

/-- `ggml_transpose` (ggml.c line 2701): a view with `ne[0]/ne[1]` and
`nb[0]/nb[1]` swapped.  The source asserts `false` when `a` has a gradient;
the only call site modelled here (backward of MUL_MAT in `src1`) reaches it
with `a.grad == NULL`. -/
def ggml_transpose (p : Pool) (a : Nat) : Pool × Nat :=
  let ta := getT p a
  let (p1, result) := ggml_view_tensor p a
  (setT p1 result (fun t =>
    { t with ne0 := ta.ne1, ne1 := ta.ne0, nb0 := ta.nb1, nb1 := ta.nb0,
             op := .TRANSPOSE, grad := none, src0 := some a, src1 := none }),
   result)

/-- Update the gradient handle of tensor `i`. -/
def setGrad (p : Pool) (i : Nat) (g : Option Nat) : Pool :=
  setT p i (fun t => { t with grad := g })

/-- Handle stored in an `Option`; the `0` default is never used by the
pipelines modelled here (the C code would dereference the corresponding
non-NULL pointer). -/
def theH (o : Option Nat) : Nat := o.getD 0

/-- `ggml_compute_backward` (ggml.c line 6313): one `switch` over the
opcode, accumulating into `src0->grad` / `src1->grad`.  A C
`assert(false)` / `GGML_ASSERT(false)` branch is embedded as
`Except.error ()`. -/
def ggml_compute_backward (p : Pool) (tensor : Nat) (inplace : Bool) :
    Except Unit Pool :=
  let t := getT p tensor
  let s0 := theH t.src0
  let s1 := theH t.src1
  match t.op with
  | .NONE => .ok p
  | .DUP =>
      .ok <|
        if (getT p s0).grad.isSome then
          let (p1, r) := ggml_add_impl p (theH (getT p s0).grad) (theH t.grad) inplace
          setGrad p1 s0 (some r)
        else p
  | .ADD =>
      let p' :=
        if (getT p s0).grad.isSome then
          let (p1, r) := ggml_add_impl p (theH (getT p s0).grad) (theH t.grad) inplace
          setGrad p1 s0 (some r)
        else p
      .ok <|
        if (getT p' s1).grad.isSome then
          let (p1, r) := ggml_add_impl p' (theH (getT p' s1).grad) (theH t.grad) inplace
          setGrad p1 s1 (some r)
        else p'
  | .SUB =>
      let p' :=
        if (getT p s0).grad.isSome then
          let (p1, r) := ggml_add_impl p (theH (getT p s0).grad) (theH t.grad) inplace
          setGrad p1 s0 (some r)
        else p
      .ok <|
        if (getT p' s1).grad.isSome then
          let (p1, r) := ggml_sub_impl p' (theH (getT p' s1).grad) (theH t.grad) inplace
          setGrad p1 s1 (some r)
        else p'
  | .MUL =>
      let p' :=
        if (getT p s0).grad.isSome then
          let (p1, m) := ggml_mul p s1 (theH t.grad)
          let (p2, r) := ggml_add_impl p1 (theH (getT p1 s0).grad) m inplace
          setGrad p2 s0 (some r)
        else p
      .ok <|
        if (getT p' s1).grad.isSome then
          let (p1, m) := ggml_mul p' s0 (theH t.grad)
          let (p2, r) := ggml_add_impl p1 (theH (getT p1 s1).grad) m inplace
          setGrad p2 s1 (some r)
        else p'
  | .DIV =>
      let p' :=
        if (getT p s0).grad.isSome then
          let (p1, d) := ggml_div p (theH t.grad) s1
          let (p2, r) := ggml_add_impl p1 (theH (getT p1 s0).grad) d inplace
          setGrad p2 s0 (some r)
        else p
      .ok <|
        if (getT p' s1).grad.isSome then
          let (p1, d) := ggml_div p' tensor s1
          let (p2, m) := ggml_mul p1 (theH t.grad) d
          let (p3, r) := ggml_sub_impl p2 (theH (getT p2 s1).grad) m inplace
          setGrad p3 s1 (some r)
        else p'
  | .SQR =>
      .ok <|
        if (getT p s0).grad.isSome then
          let (p1, m1) := ggml_mul p s0 (theH t.grad)
          let (p2, two) := ggml_new_f32 p1 2
          let (p3, rep) := ggml_repeat p2 two s0
          let (p4, m2) := ggml_mul p3 m1 rep
          let (p5, r) := ggml_add_impl p4 (theH (getT p4 s0).grad) m2 inplace
          setGrad p5 s0 (some r)
        else p
  | .SQRT =>
      .ok <|
        if (getT p s0).grad.isSome then
          let (p1, half) := ggml_new_f32 p (1 / 2)
          let (p2, rep) := ggml_repeat p1 half tensor
          let (p3, d) := ggml_div p2 rep tensor
          let (p4, r) := ggml_add_impl p3 (theH (getT p3 s0).grad) d inplace
          setGrad p4 s0 (some r)
        else p
  | .SUM =>
      .ok <|
        if (getT p s0).grad.isSome then
          let (p1, rep) := ggml_repeat p (theH t.grad) (theH (getT p s0).grad)
          let (p2, r) := ggml_add_impl p1 (theH (getT p1 s0).grad) rep inplace
          setGrad p2 s0 (some r)
        else p
  | .MEAN => .error ()
  | .REPEAT =>
      .ok <|
        if (getT p s0).grad.isSome then
          let (p1, s) := ggml_sum p (theH t.grad)
          let (p2, r) := ggml_add_impl p1 (theH (getT p1 s0).grad) s inplace
          setGrad p2 s0 (some r)
        else p
  | .ABS =>
      .ok <|
        if (getT p s0).grad.isSome then
          let (p1, sg) := ggml_sgn p s0
          let (p2, m) := ggml_mul p1 sg (theH t.grad)
          let (p3, r) := ggml_add_impl p2 (theH (getT p2 s0).grad) m inplace
          setGrad p3 s0 (some r)
        else p
  | .SGN => .ok p
  | .NEG =>
      .ok <|
        if (getT p s0).grad.isSome then
          let (p1, r) := ggml_sub_impl p (theH (getT p s0).grad) (theH t.grad) inplace
          setGrad p1 s0 (some r)
        else p
  | .STEP => .ok p
  | .RELU =>
      -- NOTE: the source subtracts `step(src0) * tensor->grad` from
      -- `src0->grad` (ggml.c line 6459, `ggml_sub_impl`).
      .ok <|
        if (getT p s0).grad.isSome then
          let (p1, st) := ggml_step p s0
          let (p2, m) := ggml_mul p1 st (theH t.grad)
          let (p3, r) := ggml_sub_impl p2 (theH (getT p2 s0).grad) m inplace
          setGrad p3 s0 (some r)
        else p
  | .GELU => .error ()
  | .NORM => .error ()
  | .MUL_MAT =>
      if (getT p s0).grad.isSome then .error ()
      else
        .ok <|
          if (getT p s1).grad.isSome then
            let (p1, tr) := ggml_transpose p s0
            let (p2, mm) := ggml_mul_mat p1 tr (theH t.grad)
            let (p3, r) := ggml_add_impl p2 (theH (getT p2 s1).grad) mm inplace
            setGrad p3 s1 (some r)
          else p
  | .SCALE => .error ()
  | .CPY => .error ()
  | .RESHAPE => .error ()
  | .VIEW => .error ()
  | .PERMUTE => .error ()
  | .TRANSPOSE => .error ()
  | .GET_ROWS => .error ()
  | .DIAG_MASK_INF => .error ()
  | .SOFT_MAX => .error ()
  | .ROPE => .error ()
  | .CONV_1D_1S => .error ()
  | .CONV_1D_2S => .error ()
  | .FLASH_ATTN => .error ()
  | .FLASH_FF => .error ()

/-- `struct ggml_cgraph` (the fields the graph builder touches): `nodes`,
the parallel `grads`, and `leafs`. -/
structure GGraph where
  nodes : List Nat := []
  grads : List (Option Nat) := []
  leafs : List Nat := []
  deriving DecidableEq, Repr

/-- The six source slots of a tensor in the order `ggml_visit_parents`
walks them: `src0`, `src1`, `opt[0..3]`. -/
def srcOpts (t : GTensor) : List (Option Nat) :=
  [t.src0, t.src1, t.opt0, t.opt1, t.opt2, t.opt3]

/-- The source handles of a tensor (the non-NULL slots). -/
def srcsOf (t : GTensor) : List Nat := (srcOpts t).filterMap id

/-- `ggml_visit_parents` (ggml.c line 6557), with an explicit recursion
budget `fuel`.  Each constructor stores only strictly smaller handles in
`src0`/`src1`/`opt[]` (the arena is append-only), so `fuel = node + 1`
always suffices; the `fuel = 0` branch is unreachable on such pools. -/
def ggml_visit_parents (p : Pool) : Nat → Nat → GGraph → GGraph
  | 0, _, g => g
  | fuel + 1, node, g =>
    if node ∈ g.nodes then g
    else if node ∈ g.leafs then g
    else
      let t := getT p node
      let g1 := match t.src0 with
        | some s => ggml_visit_parents p fuel s g
        | none => g
      let g2 := match t.src1 with
        | some s => ggml_visit_parents p fuel s g1
        | none => g1
      let g3 := match t.opt0 with
        | some s => ggml_visit_parents p fuel s g2
        | none => g2
      let g4 := match t.opt1 with
        | some s => ggml_visit_parents p fuel s g3
        | none => g3
      let g5 := match t.opt2 with
        | some s => ggml_visit_parents p fuel s g4
        | none => g4
      let g6 := match t.opt3 with
        | some s => ggml_visit_parents p fuel s g5
        | none => g5
      if t.op = GgmlOp.NONE ∧ t.grad = none then
        { g6 with leafs := g6.leafs ++ [node] }
      else
        { g6 with nodes := g6.nodes ++ [node], grads := g6.grads ++ [t.grad] }

/-- `ggml_build_forward_impl` (ggml.c line 6608). -/
def ggml_build_forward_impl (p : Pool) (g : GGraph) (tensor : Nat)
    (expand : Bool) : GGraph :=
  let g0 := if expand then g else { nodes := [], grads := [], leafs := [] }
  ggml_visit_parents p (tensor + 1) tensor g0

/-- `ggml_build_forward` (ggml.c line 6632). -/
def ggml_build_forward (p : Pool) (tensor : Nat) : GGraph :=
  ggml_build_forward_impl p {} tensor false

/-- `ggml_build_forward_expand` (ggml.c line 6628). -/
def ggml_build_forward_expand (p : Pool) (g : GGraph) (tensor : Nat) : GGraph :=
  ggml_build_forward_impl p g tensor true

/-- The `keep` branch of `ggml_build_backward` (ggml.c lines 6658-6667):
detach each node's gradient by re-allocating it, updating `gf->grads`. -/
def detachGrads (p : Pool) (gf : GGraph) : Nat → Pool × GGraph
  | 0 => (p, gf)
  | i + 1 =>
    let (p', gf') := detachGrads p gf i
    let node := gf'.nodes.getD i 0
    if (getT p' node).grad.isSome then
      let (p1, gi) := ggml_dup_tensor p' node
      (setGrad p1 node (some gi), { gf' with grads := gf'.grads.set i (some gi) })
    else (p', gf')

/-- The reverse sweep of `ggml_build_backward` (ggml.c lines 6669-6676):
call `ggml_compute_backward` on each node (in the given order) that has a
gradient. -/
def backwardSweep (inplace : Bool) : Pool → List Nat → Except Unit Pool
  | p, [] => .ok p
  | p, node :: rest =>
    if (getT p node).grad.isSome then
      match ggml_compute_backward p node inplace with
      | .error e => .error e
      | .ok p' => backwardSweep inplace p' rest
    else backwardSweep inplace p rest

/-- The parameter sweep of `ggml_build_backward` (ggml.c lines 6678-6685):
expand the result graph with the gradient of every parameter node. -/
def paramSweep (p : Pool) : GGraph → List Nat → GGraph
  | g, [] => g
  | g, node :: rest =>
    if (getT p node).is_param then
      paramSweep p (ggml_build_forward_expand p g (theH (getT p node).grad)) rest
    else paramSweep p g rest

/-- `ggml_build_backward` (ggml.c line 6652).  The result graph starts as a
copy of `gf`; with `keep`, gradients are detached first; the backward sweep
runs over `gf->nodes` in reverse with `inplace := keep`; finally parameter
gradients are added to the result graph. -/
def ggml_build_backward (p : Pool) (gf : GGraph) (keep : Bool) :
    Except Unit (Pool × GGraph) :=
  let result := gf
  let (p1, gf1) := if keep then detachGrads p gf gf.nodes.length else (p, gf)
  match backwardSweep keep p1 gf1.nodes.reverse with
  | .error e => .error e
  | .ok p2 => .ok (p2, paramSweep p2 result gf1.nodes.reverse)

/-- Recursive forward evaluation of the scalar (one-element `F32`) value of
a node: the per-opcode semantics of the forward kernels at `n = 1`
(`ggml_vec_*_f32`, ggml.c lines 289-929; `SUM` and same-shape `REPEAT`
degenerate to the identity on scalars).  `fuel` bounds the recursion depth;
sources have strictly smaller handles, so `fuel` larger than the handle
suffices.  Evaluating a node recursively in this way agrees with
`ggml_graph_compute`'s topological-order sweep because all kernels are pure
functions of their sources. -/
def evalT : Nat → Pool → Nat → ℚ
  | 0, _, _ => 0
  | fuel + 1, p, i =>
    let t := getT p i
    match t.op with
    | .NONE => t.value
    | .DUP => evalT fuel p (theH t.src0)
    | .ADD => evalT fuel p (theH t.src0) + evalT fuel p (theH t.src1)
    | .SUB => evalT fuel p (theH t.src0) - evalT fuel p (theH t.src1)
    | .MUL => evalT fuel p (theH t.src0) * evalT fuel p (theH t.src1)
    | .DIV => evalT fuel p (theH t.src0) / evalT fuel p (theH t.src1)
    | .SQR => evalT fuel p (theH t.src0) * evalT fuel p (theH t.src0)
    | .SUM => evalT fuel p (theH t.src0)
    | .REPEAT => evalT fuel p (theH t.src0)
    | .ABS => |evalT fuel p (theH t.src0)|
    | .SGN =>
        let x := evalT fuel p (theH t.src0)
        if 0 < x then 1 else if x < 0 then -1 else 0
    | .NEG => -evalT fuel p (theH t.src0)
    | .STEP => if 0 < evalT fuel p (theH t.src0) then 1 else 0
    | .RELU =>
        let x := evalT fuel p (theH t.src0)
        if 0 < x then x else 0
    | _ => 0

/-- Scenario S5, `f(x) = x²` at `x = 3`: create the scalar parameter, build
the forward graph of `sqr`, zero the parameter gradient (as
`ggml_graph_reset` does), set `f.grad = 1`, build the backward graph, and
evaluate the parameter's gradient tensor. -/
def sqr_scenario_xgrad : ℚ :=
  let px := ggml_new_tensor_1d [] .F32 1
  let x := px.2
  let p := ggml_set_param px.1 x
  let p := ggml_set_f32 p x 3
  let pf := ggml_sqr p x
  let f := pf.2
  let gf := ggml_build_forward pf.1 f
  let p := ggml_set_f32 pf.1 (theH (getT pf.1 x).grad) 0
  let p := ggml_set_f32 p (theH (getT p f).grad) 1
  match ggml_build_backward p gf false with
  | .error _ => 0
  | .ok (p', _) => evalT 32 p' (theH (getT p' x).grad)

/-- The RELU analogue of scenario S5: scalar parameter `x = 1`,
`t = relu(x)`, forward graph, gradients reset, `t.grad = 1`, backward
graph, then the value of `x`'s gradient tensor. -/
def relu_scenario_xgrad : ℚ :=
  let px := ggml_new_tensor_1d [] .F32 1
  let x := px.2
  let p := ggml_set_param px.1 x
  let p := ggml_set_f32 p x 1
  let pt := ggml_relu p x
  let t := pt.2
  let gf := ggml_build_forward pt.1 t
  let p := ggml_set_f32 pt.1 (theH (getT pt.1 x).grad) 0
  let p := ggml_set_f32 p (theH (getT p t).grad) 1
  match ggml_build_backward p gf false with
  | .error _ => 0
  | .ok (p', _) => evalT 32 p' (theH (getT p' x).grad)

/-! ### Arena (context) byte accounting, `ggml_init` / `ggml_used_mem` /
`ggml_new_tensor_impl` (ggml.c lines 1340-1488).

The object chain (`objects_begin` … `objects_end`) is modelled as the list
of object headers in allocation order.  `sizeof(struct ggml_object)`,
`sizeof(struct ggml_tensor)` and `GGML_MEM_ALIGN` are platform-layout
constants kept abstract as arguments. -/

/-- `struct ggml_object`: offset of the tensor header inside the arena and
rounded-up size of header plus payload. -/
structure GObject where
  offset : Nat
  size : Nat
  deriving DecidableEq, Repr

/-- `struct ggml_context`: arena capacity and the object chain. -/
structure ArenaContext where
  mem_size : Nat
  objects : List GObject
  n_objects : Nat
  deriving DecidableEq, Repr

/-- `ctx->objects_end`: the last object of the chain, `none` embedding the
`NULL` pointer of a freshly initialized context. -/
def objects_end (ctx : ArenaContext) : Option GObject := ctx.objects.getLast?

/-- `ggml_init` (ggml.c lines 1340-1347): fresh context with an empty
object list (`objects_begin = objects_end = NULL`, `n_objects = 0`). -/
def ggml_init (mem_size : Nat) : ArenaContext :=
  { mem_size := mem_size, objects := [], n_objects := 0 }

/-- `ggml_used_mem` (ggml.c line 1392) reads
`ctx->objects_end->offset + ctx->objects_end->size` unconditionally; the
`none` result marks the NULL dereference that happens when no object has
been allocated yet. -/
def ggml_used_mem (ctx : ArenaContext) : Option Nat :=
  (objects_end ctx).map (fun o => o.offset + o.size)

/-- `cur_end` of `ggml_new_tensor_impl` (ggml.c lines 1405-1409). -/
def curEnd (ctx : ArenaContext) : Nat :=
  match objects_end ctx with
  | none => 0
  | some o => o.offset + o.size

/-- `size_needed` of `ggml_new_tensor_impl` (ggml.c lines 1411-1422): when
`data == NULL` the payload is `GGML_TYPE_SIZE[type] * ∏ ne[i]` rounded up
to `GGML_MEM_ALIGN`; the tensor header size is always added. -/
def sizeNeeded (tensorSize memAlign : Nat) (type : GgmlType) (ne : List Nat)
    (dataIsNull : Bool) : Nat :=
  (if dataIsNull then
    ((GGML_TYPE_SIZE type * ne.prod + memAlign - 1) / memAlign) * memAlign
  else 0) + tensorSize

/-- The allocation performed by `ggml_new_tensor_impl` (ggml.c lines
1404-1451): the capacity check `cur_end + size_needed + GGML_OBJECT_SIZE >
ctx->mem_size` comes before any write; on failure (`assert(false);
return NULL;`) the context is returned unchanged, otherwise the new object
header is appended at `cur_end` and the tensor lives at
`cur_end + GGML_OBJECT_SIZE`. -/
def ggml_new_tensor_impl_alloc (objSize tensorSize memAlign : Nat)
    (ctx : ArenaContext) (type : GgmlType) (ne : List Nat)
    (dataIsNull : Bool) : Option Nat × ArenaContext :=
  let cur_end := curEnd ctx
  let size_needed := sizeNeeded tensorSize memAlign type ne dataIsNull
  if ctx.mem_size < cur_end + size_needed + objSize then
    (none, ctx)
  else
    let obj : GObject := { offset := cur_end + objSize, size := size_needed }
    (some obj.offset,
     { ctx with objects := ctx.objects ++ [obj], n_objects := ctx.n_objects + 1 })

/-! ### Forward kernels.

4-D element coordinates `(i0, i1, i2, i3)` replace byte addressing: the
kernels below assume the stride layout their C originals assert
(`src0` row-major, `nb10 == sizeof(float)`, `dst` not permuted), under
which `(char *)data + i0*nb0 + i1*nb1 + i2*nb2 + i3*nb3` is exactly the
element at `(i0, i1, i2, i3)`.  A loop nest that stores into `dst` is
embedded as a list of writes (in loop order) applied to the initial
contents of `dst`. -/

/-- 4-D element coordinate `(i0, i1, i2, i3)`. -/
abbrev Idx4 := Nat × Nat × Nat × Nat

/-- One store `dst[k] = v`. -/
def updW {V : Type} (f : Idx4 → V) (k : Idx4) (v : V) : Idx4 → V :=
  fun q => if q = k then v else f q

/-- Apply a list of stores in order. -/
def applyWrites {V : Type} (ws : List (Idx4 × V)) (f : Idx4 → V) : Idx4 → V :=
  ws.foldl (fun g kv => updW g kv.1 kv.2) f

/-- `ggml_vec_dot_f32` (ggml.c line 293), scalar reference form:
`Σ_{i<n} x[i]*y[i]`. -/
def ggml_vec_dot_f32 (n : Nat) (x y : Nat → ℚ) : ℚ :=
  ((List.range n).map (fun i => x i * y i)).sum

/-- The stores of the COMPUTE phase of `ggml_compute_forward_mul_mat_f32`
(ggml.c lines 4183-4222), row-major branch (`nb01 ≥ nb00`), single thread
(`ith = 0`, `nth = 1`): `ir` enumerates the rows of `src0` as the
lexicographic nest `(i03, i02, i01)`, `ic` enumerates `i11 < ne11`, and
`dst[i01, i11, i02, i03]` receives the dot product over `ne00` of row
`i01` of `src0` and row `i11` of `src1` (with `i12 = i02`, `i13 = i03`). -/
def mulMatWrites (ne00 ne01 ne02 ne03 ne11 : Nat)
    (src0 src1 : Idx4 → ℚ) : List (Idx4 × ℚ) :=
  (List.range ne03).flatMap fun i03 =>
    (List.range ne02).flatMap fun i02 =>
      (List.range ne01).flatMap fun i01 =>
        (List.range ne11).map fun i11 =>
          (((i01, i11, i02, i03) : Idx4),
           ggml_vec_dot_f32 ne00 (fun k => src0 (k, i01, i02, i03))
             (fun k => src1 (k, i11, i02, i03)))

/-- `ggml_compute_forward_mul_mat_f32`, row-major non-BLAS branch (INIT and
FINALIZE are no-ops there): all stores applied to the initial `dst`. -/
def ggml_compute_forward_mul_mat_f32 (ne00 ne01 ne02 ne03 ne11 : Nat)
    (src0 src1 dst0 : Idx4 → ℚ) : Idx4 → ℚ :=
  applyWrites (mulMatWrites ne00 ne01 ne02 ne03 ne11 src0 src1) dst0

/-- Scenario S2: `A` is 2×3 (`ne = {3, 2}`), rows `[1,2,3]`, `[4,5,6]`;
element `(k, i01)` is row `i01`, column `k`. -/
def s2A : Idx4 → ℚ :=
  fun q => (([[1, 2, 3], [4, 5, 6]] : List (List ℚ)).getD q.2.1 []).getD q.1 0

/-- Scenario S2: `B` is 4×3 (`ne = {3, 4}`), rows `[1,0,0]`, `[0,1,0]`,
`[0,0,1]`, `[1,1,1]`. -/
def s2B : Idx4 → ℚ :=
  fun q => (([[1, 0, 0], [0, 1, 0], [0, 0, 1], [1, 1, 1]] : List (List ℚ)).getD q.2.1 []).getD q.1 0

/-- Scenario S2 output read back as rows indexed by `i1 < 4`, columns
`i0 < 2` (dst `ne = {2, 4}`), starting from a zeroed `dst`. -/
def s2Out : List (List ℚ) :=
  (List.range 4).map fun i1 =>
    (List.range 2).map fun i0 =>
      ggml_compute_forward_mul_mat_f32 3 2 1 1 4 s2A s2B (fun _ => 0) (i0, i1, 0, 0)

/-! ### SOFT_MAX kernel (ggml.c lines 4855-4924), one row.

A row entry is `Option ℚ`: `none` embeds `-INFINITY`, `some v` a finite
value.  The FP16-table exponential
`ggml_fp16_to_fp32(table_exp_f16[fp16 bits of (p[i] - max)])` is kept
abstract as a function `E : ℚ → ℚ`; the theorems assume only `E 0 = 1` and
`0 ≤ E x` for `x ≤ 0`, both of which hold for the table (the lookup at 0
is `exp(0) = 1` exactly, and every table value is a rounding of a
positive exponential, possibly to 0). -/

/-- One `MAX(max, p[i])` step of the row-maximum loop (line 4893), over
`-∞`-extended values; the fold starts from `-INFINITY` (`none`). -/
def omax : Option ℚ → Option ℚ → Option ℚ
  | none, y => y
  | some a, none => some a
  | some a, some b => some (max a b)

/-- The row maximum (ggml.c lines 4891-4894). -/
def softmaxRowMax (row : List (Option ℚ)) : Option ℚ := row.foldl omax none

/-- The exponentiation/summation loop (ggml.c lines 4896-4910): `-∞`
entries are stored as 0 and skipped by the sum; other entries are stored as
`E (p[i] - max)` and added to the sum (the recursion sums right-to-left,
which over `ℚ` agrees with the C left-to-right accumulation). -/
def softmaxPass (E : ℚ → ℚ) (mu : ℚ) : List (Option ℚ) → List ℚ × ℚ
  | [] => ([], 0)
  | none :: rest =>
    let r := softmaxPass E mu rest
    (0 :: r.1, r.2)
  | some v :: rest =>
    let r := softmaxPass E mu rest
    (E (v - mu) :: r.1, r.2 + E (v - mu))

/-- `ggml_compute_forward_soft_max_f32` on one row: row maximum,
exponentiation pass, the `assert(sum > 0.0f)` (line 4912, embedded as the
`none` result), then scaling by `1/sum` (lines 4914-4915).  The `getD 0`
fallback for the maximum is unreachable whenever the row has a finite
entry. -/
def ggml_compute_forward_soft_max_row (E : ℚ → ℚ) (row : List (Option ℚ)) :
    Option (List ℚ) :=
  let mu := (softmaxRowMax row).getD 0
  let pass := softmaxPass E mu row
  if 0 < pass.2 then some (pass.1.map (fun v => v * (1 / pass.2))) else none

/-! ### ROPE kernel (ggml.c lines 4948-5003).

The arithmetic is over an abstract commutative ring with abstract
`cos`/`sin`/`theta` functions so that the kernel stays executable; the
ROPE theorems instantiate them with `Real.cos`, `Real.sin` and
`θ(n_dims, i0) = 10000 ^ (-i0 / n_dims)` (`Real.rpow`), matching
`pow(10000.0, ((double)-i0)/n_dims)`. -/

/-- The stores of `ggml_compute_forward_rope_f32` (ggml.c lines 4981-5002):
for `i3 < ne3`, `i2` from `(mode == 0 ? 0 : n_past)` to `ne2`, `i1 < ne1`
and even `i0 = 2*m < n_dims`, the pair `(src[i0], src[i0+1])` is rotated by
the angle `p * θ(n_dims, i0)` where `p = (mode == 0 ? n_past + i2 : i2)`.
`dst` is a view of `src0` (`ggml_rope`, ggml.c line 2824), and each pair of
locations is read only in the iteration that writes it, so reading from the
original `src` is exact. -/
def ropeWrites {R : Type} [CommRing R] (cosF sinF : R → R)
    (thetaF : Nat → Nat → R) (n_past n_dims mode ne1 ne2 ne3 : Nat)
    (src : Idx4 → R) : List (Idx4 × R) :=
  (List.range ne3).flatMap fun i3 =>
    (List.range' (if mode = 0 then 0 else n_past)
        (ne2 - (if mode = 0 then 0 else n_past))).flatMap fun i2 =>
      (List.range ne1).flatMap fun i1 =>
        (List.range ((n_dims + 1) / 2)).flatMap fun m =>
          let i0 := 2 * m
          let pp : Nat := if mode = 0 then n_past + i2 else i2
          let theta := thetaF n_dims i0
          let cos_theta := cosF ((pp : R) * theta)
          let sin_theta := sinF ((pp : R) * theta)
          let x0 := src (i0, i1, i2, i3)
          let x1 := src (i0 + 1, i1, i2, i3)
          [((i0, i1, i2, i3), x0 * cos_theta - x1 * sin_theta),
           ((i0 + 1, i1, i2, i3), x0 * sin_theta + x1 * cos_theta)]

/-- `ggml_compute_forward_rope_f32`: all stores applied to `dst = src`
(the result tensor is a view of the source). -/
def ggml_compute_forward_rope_f32 {R : Type} [CommRing R]
    (cosF sinF : R → R) (thetaF : Nat → Nat → R)
    (n_past n_dims mode ne1 ne2 ne3 : Nat) (src : Idx4 → R) : Idx4 → R :=
  applyWrites (ropeWrites cosF sinF thetaF n_past n_dims mode ne1 ne2 ne3 src) src

/-! ### Graph invariants. -/

/-- Every constructor stores only previously allocated (strictly smaller)
handles in the source slots; this holds for every pool built by the
constructors above. -/
def PoolWF (p : Pool) : Prop :=
  ∀ i, i < p.length → ∀ s ∈ srcsOf (getT p i), s < i

instance (p : Pool) : Decidable (PoolWF p) := by
  unfold PoolWF; infer_instance

/-- `nodes[]` is topologically ordered: every source of `nodes[k]` appears
at an index `< k` of `nodes[]` or in `leafs[]`. -/
def TopoOK (p : Pool) (g : GGraph) : Prop :=
  ∀ k, k < g.nodes.length →
    ∀ s ∈ srcsOf (getT p (g.nodes.getD k 0)), s ∈ g.nodes.take k ∨ s ∈ g.leafs

/-- The graph invariant claimed for `ggml_build_forward`: no tensor appears
twice in `nodes ∪ leafs`, and `nodes` is topologically ordered. -/
def GraphInv (p : Pool) (g : GGraph) : Prop :=
  (g.nodes ++ g.leafs).Nodup ∧ TopoOK p g

/-- Sequential visit of a list of optional source handles: the abstract
shape of the `src0`/`src1`/`opt[]` cascade of `ggml_visit_parents`. -/
def visitListWith (f : Nat → GGraph → GGraph) :
    List (Option Nat) → GGraph → GGraph
  | [], g => g
  | none :: rest, g => visitListWith f rest g
  | some s :: rest, g => visitListWith f rest (f s g)

/-- One graph extends another: nodes, grads and leafs have only been
appended to. -/
def GExt (g g' : GGraph) : Prop :=
  ∃ ns gs ls, g'.nodes = g.nodes ++ ns ∧ g'.grads = g.grads ++ gs ∧
    g'.leafs = g.leafs ++ ls

/-! ### Concrete inputs used by witnesses and counterexamples. -/

/-- Tensor 0 has a gradient (tensor 1); tensor 2 has the same (all-ones)
shape as tensor 0. -/
def repeatGradPool : Pool := [{ grad := some 1 }, {}, {}]

/-- Two gradient-free tensors of the same shape. -/
def repeatPlainPool : Pool := [{}, {}]

/-- A GELU node (tensor 1) over tensor 0, with a gradient handle. -/
def geluNodePool : Pool :=
  [{}, { op := .GELU, grad := some 2, src0 := some 0 }, {}]

/-- A single plain leaf tensor: no op, no gradient. -/
def leafOnlyPool : Pool := [{}]

/-- Shape metadata of the S2 scenario: `a` is 2×3 (`ne = {3, 2}`), `b` is
4×3 (`ne = {3, 4}`). -/
def mmPool : Pool :=
  [{ n_dims := 2, ne0 := 3, ne1 := 2 }, { n_dims := 2, ne0 := 3, ne1 := 4 }]

/-- A rank-1 `a` (a length-2 vector) with a rank-2 `b` (a 3×2 matrix):
`ggml_can_mul_mat` holds, but the result of `ggml_mul_mat` is 1-D. -/
def rankMismatchPool : Pool :=
  [{ n_dims := 1, ne0 := 2 }, { n_dims := 2, ne0 := 2, ne1 := 3 }]

/-- The pool of scenario S5 after the forward construction: `x` (0), its
gradient (1), `f = sqr x` (2) and `f`'s gradient (3). -/
def sqrPoolFwd : Pool :=
  (ggml_sqr (ggml_set_f32 (ggml_set_param (ggml_new_tensor_1d [] .F32 1).1 0) 0 3) 0).1

/-- The opcodes whose `ggml_compute_backward` case is an unconditional
`assert(false)` / `GGML_ASSERT(false)` (ggml.c lines 6467-6545). -/
def backwardUnimplementedOps : List GgmlOp :=
  [.GELU, .NORM, .SCALE, .CPY, .RESHAPE, .VIEW, .PERMUTE, .TRANSPOSE,
   .GET_ROWS, .DIAG_MASK_INF, .SOFT_MAX, .ROPE, .CONV_1D_1S, .CONV_1D_2S,
   .FLASH_ATTN, .FLASH_FF]

/-! ## Theorems -/

/-- Claim C3: for the scalar `F32` parameter `x = 3.0` and the forward
graph `f = sqr(x)`, running `ggml_build_forward`, resetting gradients,
setting `f.grad = 1` and building/evaluating the backward graph stores
exactly `6` in `x.grad` (the SQR backward rule accumulates
`src0 * tensor.grad * 2` into `src0.grad`); over exact arithmetic the
value is `6`, a fortiori within `1e-6` of `6.0`. -/
theorem sqr_autodiff_xgrad_eq_six : sqr_scenario_xgrad = 6 := by
  norm_num [sqr_scenario_xgrad, evalT, getT, theH, ggml_new_tensor_1d,
    ggml_new_tensor, ggml_new_tensor_impl, ggml_set_param, ggml_set_f32,
    ggml_sqr, ggml_sqr_impl, mkUnary, ggml_dup_tensor, ggml_view_tensor,
    setT, GGML_TYPE_SIZE, ggml_build_forward, ggml_build_forward_impl,
    ggml_build_forward_expand, ggml_visit_parents, ggml_build_backward,
    backwardSweep, paramSweep, detachGrads, ggml_compute_backward,
    ggml_add_impl, ggml_mul, ggml_mul_impl, ggml_new_f32, ggml_repeat,
    setGrad, ggml_are_same_shape, srcOpts, srcsOf]

/-- Claim C4: the RELU backward rule of `ggml_compute_backward`
(ggml.c line 6459) uses `ggml_sub_impl`, so on the scenario
`x = 1`, `t = relu(x)`, `t.grad = 1`, `x.grad` reset to `0`, the code
stores `0 - step(1) * 1 = -1` into `x.grad` — the negation of the
reverse-mode derivative `+1` that the claim (and the ABS rule one case
above, which uses `ggml_add_impl`) prescribe. -/
theorem relu_backward_subtracts_gradient : relu_scenario_xgrad = -1 := by
  norm_num [relu_scenario_xgrad, evalT, getT, theH, ggml_new_tensor_1d,
    ggml_new_tensor, ggml_new_tensor_impl, ggml_set_param, ggml_set_f32,
    ggml_relu, ggml_relu_impl, mkUnary, ggml_dup_tensor, ggml_view_tensor,
    setT, GGML_TYPE_SIZE, ggml_build_forward, ggml_build_forward_impl,
    ggml_build_forward_expand, ggml_visit_parents, ggml_build_backward,
    backwardSweep, paramSweep, detachGrads, ggml_compute_backward,
    ggml_add_impl, ggml_sub_impl, ggml_mul, ggml_mul_impl, ggml_step,
    ggml_step_impl, setGrad, ggml_are_same_shape, srcOpts, srcsOf]

/-- Claim C5, counterexample: when `a` carries a gradient, `ggml_repeat`
on same-shaped tensors does *not* return the handle `a` — it allocates a
new REPEAT tensor (ggml.c line 2145 requires `!is_node` as well). -/
theorem repeat_same_shape_with_grad_allocates :
    (ggml_repeat repeatGradPool 0 2).2 ≠ 0 := by decide

/-- Claim C5, amended: when `a` and `b` have the same shape *and `a` has
no gradient*, `ggml_repeat` returns the handle `a` itself and the pool is
untouched (no allocation, no copy). -/
theorem ggml_repeat_same_shape_returns_a (p : Pool) (a b : Nat)
    (hsh : ggml_are_same_shape (getT p a) (getT p b))
    (hg : (getT p a).grad = none) :
    ggml_repeat p a b = (p, a) := by
  simp [ggml_repeat, hsh, hg]

/-- Witness for the amended claim C5 at a concrete pool. -/
theorem ggml_repeat_same_shape_returns_a_witness :
    ggml_repeat repeatPlainPool 0 1 = (repeatPlainPool, 0) :=
  ggml_repeat_same_shape_returns_a repeatPlainPool 0 1 (by decide) (by decide)

/-- Claim C6: for every node whose opcode is in the unimplemented-backward
set (GELU, NORM, SCALE, CPY, RESHAPE, VIEW, PERMUTE, TRANSPOSE, GET_ROWS,
DIAG_MASK_INF, SOFT_MAX, ROPE, CONV_1D_1S, CONV_1D_2S, FLASH_ATTN,
FLASH_FF) — or is MUL_MAT with a gradient on its first operand —
`ggml_compute_backward` with a gradient present is a fatal assertion
(`Except.error`), never a silent no-op. -/
theorem backward_unimplemented_asserts (p : Pool) (i : Nat) (ip : Bool)
    (_hgrad : (getT p i).grad.isSome = true)
    (h : (getT p i).op ∈ backwardUnimplementedOps ∨
      ((getT p i).op = .MUL_MAT ∧
        (getT p (theH (getT p i).src0)).grad.isSome = true)) :
    ggml_compute_backward p i ip = .error () := by
  rcases h with h | ⟨hop, hs0⟩
  · simp only [backwardUnimplementedOps, List.mem_cons, List.not_mem_nil,
      or_false] at h
    rcases h with h | h | h | h | h | h | h | h | h | h | h | h | h | h | h | h <;>
      simp [ggml_compute_backward, h]
  · simp [ggml_compute_backward, hop, hs0]

/-- Witness for claim C6: backward through a GELU node with a gradient is
an assertion failure. -/
theorem backward_unimplemented_asserts_witness :
    ggml_compute_backward geluNodePool 1 false = .error () :=
  backward_unimplemented_asserts geluNodePool 1 false (by decide)
    (Or.inl (by decide))

/-- Claim C9: a tensor-creation request whose rounded-up header-plus-payload
size would overflow the arena (`cur_end + size_needed + GGML_OBJECT_SIZE >
mem_size`, checked at ggml.c line 1424 before any write) fails fatally and
leaves the context — object list, `objects_end`, `n_objects`, `used_mem` —
completely unchanged. -/
theorem new_tensor_out_of_space (objSize tensorSize memAlign : Nat)
    (ctx : ArenaContext) (type : GgmlType) (ne : List Nat) (d : Bool)
    (h : ctx.mem_size <
      curEnd ctx + sizeNeeded tensorSize memAlign type ne d + objSize) :
    ggml_new_tensor_impl_alloc objSize tensorSize memAlign ctx type ne d =
      (none, ctx) := by
  simp [ggml_new_tensor_impl_alloc, h]

/-- Witness for claim C9: a 4-element `F32` tensor does not fit in a
64-byte arena (with 32-byte object headers, 160-byte tensor headers and
16-byte alignment). -/
theorem new_tensor_out_of_space_witness :
    ggml_new_tensor_impl_alloc 32 160 16 (ggml_init 64) .F32 [4] true =
      (none, ggml_init 64) :=
  new_tensor_out_of_space 32 160 16 (ggml_init 64) .F32 [4] true (by decide)

/-- Claim C10: `ggml_used_mem` reads `objects_end->offset +
objects_end->size` unconditionally; on a freshly initialized context
`objects_end` is NULL (the embedding returns `none`), and under the
precondition that at least one object has been allocated the read is
defined. -/
theorem used_mem_requires_allocation :
    (∀ sz, ggml_used_mem (ggml_init sz) = none) ∧
    (∀ ctx : ArenaContext, ctx.objects ≠ [] →
      (ggml_used_mem ctx).isSome = true) ∧
    (∀ objSize tensorSize memAlign ctx type ne d off ctx',
      ggml_new_tensor_impl_alloc objSize tensorSize memAlign ctx type ne d =
        (some off, ctx') → ∃ n, ggml_used_mem ctx' = some n) := by
  refine ⟨fun sz => rfl, fun ctx h => ?_, ?_⟩
  · simp [ggml_used_mem, objects_end, Option.isSome_map, List.getLast?_isSome, h]
  · intro objSize tensorSize memAlign ctx type ne d off ctx' h
    unfold ggml_new_tensor_impl_alloc at h
    by_cases hov : ctx.mem_size <
        curEnd ctx + sizeNeeded tensorSize memAlign type ne d + objSize
    · simp [hov] at h
    · simp only [hov, if_false] at h
      rw [Prod.ext_iff] at h
      obtain ⟨-, h2⟩ := h
      subst h2
      refine ⟨curEnd ctx + objSize + sizeNeeded tensorSize memAlign type ne d, ?_⟩
      simp [ggml_used_mem, objects_end, List.getLast?_concat]

/-- Witness for claim C10: fresh context → undefined (`none`); after one
successful allocation → defined. -/
theorem used_mem_requires_allocation_witness :
    ggml_used_mem (ggml_init 0) = none ∧
    ∃ n, ggml_used_mem
      (ggml_new_tensor_impl_alloc 32 160 16 (ggml_init 512) .F32 [4] true).2 =
        some n :=
  ⟨used_mem_requires_allocation.1 0,
   used_mem_requires_allocation.2.2 32 160 16 (ggml_init 512) .F32 [4] true
     32 _ (by decide)⟩

/-! ### Write-once lemmas for loop nests embedded as store lists. -/

/-- A location no store targets keeps its initial contents. -/
theorem applyWrites_notin {V : Type} (ws : List (Idx4 × V)) (f : Idx4 → V)
    (k : Idx4) (h : ∀ w ∈ ws, w.1 ≠ k) : applyWrites ws f k = f k := by
  induction ws generalizing f with
  | nil => rfl
  | cons w rest ih =>
    rw [show applyWrites (w :: rest) f = applyWrites rest (updW f w.1 w.2) from rfl]
    rw [ih _ (fun w' hw' => h w' (List.mem_cons_of_mem _ hw'))]
    simp only [updW, if_neg (Ne.symm (h w (List.mem_cons_self _ _)))]

/-- If every store to location `k` stores the value `v`, and at least one
store to `k` occurs, the final contents at `k` are `v`. -/
theorem applyWrites_uniq {V : Type} (ws : List (Idx4 × V)) (f : Idx4 → V)
    (k : Idx4) (v : V) (hmem : (k, v) ∈ ws)
    (huniq : ∀ w ∈ ws, w.1 = k → w = (k, v)) :
    applyWrites ws f k = v := by
  induction ws generalizing f with
  | nil => cases hmem
  | cons w rest ih =>
    rw [show applyWrites (w :: rest) f = applyWrites rest (updW f w.1 w.2) from rfl]
    by_cases hk : ∃ w' ∈ rest, w'.1 = k
    · obtain ⟨w', hw', hk'⟩ := hk
      have hw'v : w' = (k, v) := huniq w' (List.mem_cons_of_mem _ hw') hk'
      have hmem' : (k, v) ∈ rest := hw'v ▸ hw'
      exact ih _ hmem' (fun w'' h'' hkk =>
        huniq w'' (List.mem_cons_of_mem _ h'') hkk)
    · push_neg at hk
      rw [applyWrites_notin rest _ k hk]
      rcases List.mem_cons.mp hmem with h | h
      · rw [← h]; simp [updW]
      · exact absurd rfl (hk (k, v) h)

/-! ### Pool lookup helpers. -/

theorem getD_append_length {α : Type} (l : List α) (a d : α) :
    (l ++ [a]).getD l.length d = a := by
  induction l with
  | nil => rfl
  | cons x xs ih => simp only [List.cons_append, List.length_cons, List.getD_cons_succ]; exact ih

theorem getD_append_lt {α : Type} (l l' : List α) (i : Nat) (h : i < l.length)
    (d : α) : (l ++ l').getD i d = l.getD i d := by
  induction l generalizing i with
  | nil => cases h
  | cons x xs ih =>
    cases i with
    | zero => rfl
    | succ j => simpa using ih j (Nat.lt_of_succ_lt_succ h)

theorem setT_length (p : Pool) (i : Nat) (f : GTensor → GTensor) :
    (setT p i f).length = p.length := by
  induction p generalizing i with
  | nil => rfl
  | cons t ts ih =>
    cases i with
    | zero => rfl
    | succ j => simpa [setT] using ih j

theorem getT_setT_self (p : Pool) (i : Nat) (f : GTensor → GTensor)
    (h : i < p.length) : getT (setT p i f) i = f (getT p i) := by
  induction p generalizing i with
  | nil => cases h
  | cons t ts ih =>
    cases i with
    | zero => rfl
    | succ j => simpa [setT, getT] using ih j (Nat.lt_of_succ_lt_succ h)

/-- Shape and type of the `ggml_mul_mat` result: always `F32`, rank
`min(a.n_dims, b.n_dims)`, the first `n_dims` extents drawn from
`{a.ne[1], b.ne[1], a.ne[2], b.ne[3]}` and the remaining extents 1. -/
theorem ggml_mul_mat_result_shape (p : Pool) (a b : Nat) :
    (getT (ggml_mul_mat p a b).1 (ggml_mul_mat p a b).2).type = .F32 ∧
    (getT (ggml_mul_mat p a b).1 (ggml_mul_mat p a b).2).op = .MUL_MAT ∧
    (getT (ggml_mul_mat p a b).1 (ggml_mul_mat p a b).2).n_dims =
      min (getT p a).n_dims (getT p b).n_dims ∧
    (getT (ggml_mul_mat p a b).1 (ggml_mul_mat p a b).2).ne0 =
      (if 0 < min (getT p a).n_dims (getT p b).n_dims then (getT p a).ne1 else 1) ∧
    (getT (ggml_mul_mat p a b).1 (ggml_mul_mat p a b).2).ne1 =
      (if 1 < min (getT p a).n_dims (getT p b).n_dims then (getT p b).ne1 else 1) ∧
    (getT (ggml_mul_mat p a b).1 (ggml_mul_mat p a b).2).ne2 =
      (if 2 < min (getT p a).n_dims (getT p b).n_dims then (getT p a).ne2 else 1) ∧
    (getT (ggml_mul_mat p a b).1 (ggml_mul_mat p a b).2).ne3 =
      (if 3 < min (getT p a).n_dims (getT p b).n_dims then (getT p b).ne3 else 1) := by
  have getT_one : ∀ (pp : Pool) (t : GTensor), getT (pp ++ [t]) pp.length = t :=
    fun pp t => getD_append_length pp t _
  have getT_two : ∀ (pp : Pool) (t t2 : GTensor),
      getT (pp ++ [t, t2]) pp.length = t := by
    intro pp t t2
    unfold getT
    rw [show pp ++ [t, t2] = (pp ++ [t]) ++ [t2] by simp]
    rw [getD_append_lt _ _ _ (by simp)]
    exact getD_append_length pp t _
  unfold ggml_mul_mat ggml_new_tensor ggml_new_tensor_impl ggml_dup_tensor
  by_cases hn : ((getT p a).grad.isSome || (getT p b).grad.isSome) = true
  · simp only [hn, ite_true]
    simp only [ggml_new_tensor_impl]
    rw [getT_setT_self _ _ _ (by simp [setT_length])]
    simp [getT_one, getT_two, List.getD]
  · simp only [hn, Bool.false_eq_true, ite_false]
    try simp only [ggml_new_tensor_impl]
    rw [getT_setT_self _ _ _ (by simp [setT_length])]
    simp [getT_one, getT_two, List.getD]

/-- The row-major MUL_MAT kernel stores, at every in-range destination
coordinate, the dot product of the corresponding `src0` row and `src1`
row. -/
theorem mul_mat_kernel_dot (ne00 ne01 ne02 ne03 ne11 : Nat)
    (src0 src1 dst0 : Idx4 → ℚ) (i0 i1 i2 i3 : Nat)
    (h0 : i0 < ne01) (h1 : i1 < ne11) (h2 : i2 < ne02) (h3 : i3 < ne03) :
    ggml_compute_forward_mul_mat_f32 ne00 ne01 ne02 ne03 ne11 src0 src1 dst0
      (i0, i1, i2, i3) =
      ggml_vec_dot_f32 ne00 (fun k => src0 (k, i0, i2, i3))
        (fun k => src1 (k, i1, i2, i3)) := by
  apply applyWrites_uniq
  · simp only [mulMatWrites, List.mem_flatMap, List.mem_map, List.mem_range]
    exact ⟨i3, h3, i2, h2, i0, h0, i1, h1, rfl⟩
  · intro w hw hk
    simp only [mulMatWrites, List.mem_flatMap, List.mem_map, List.mem_range] at hw
    obtain ⟨i03, h03, i02, h02, i01, h01, i11, h11, rfl⟩ := hw
    simp only [Prod.mk.injEq] at hk
    obtain ⟨rfl, rfl, rfl, rfl⟩ := hk
    rfl

/-- Scenario S2 computes `[[1,4],[2,5],[3,6],[6,15]]`. -/
theorem s2_value : s2Out = [[1, 4], [2, 5], [3, 6], [6, 15]] := by
  have h : ∀ i0 i1, i0 < 2 → i1 < 4 →
      ggml_compute_forward_mul_mat_f32 3 2 1 1 4 s2A s2B (fun _ => 0) (i0, i1, 0, 0) =
        ggml_vec_dot_f32 3 (fun k => s2A (k, i0, 0, 0)) (fun k => s2B (k, i1, 0, 0)) :=
    fun i0 i1 h0 h1 =>
      mul_mat_kernel_dot 3 2 1 1 4 s2A s2B (fun _ => 0) i0 i1 0 0 h0 h1
        Nat.one_pos Nat.one_pos
  simp only [s2Out, List.range_succ, List.range_zero, List.nil_append,
    List.cons_append, List.map_cons, List.map_nil]
  rw [h 0 0 (by norm_num) (by norm_num), h 1 0 (by norm_num) (by norm_num),
    h 0 1 (by norm_num) (by norm_num), h 1 1 (by norm_num) (by norm_num),
    h 0 2 (by norm_num) (by norm_num), h 1 2 (by norm_num) (by norm_num),
    h 0 3 (by norm_num) (by norm_num), h 1 3 (by norm_num) (by norm_num)]
  norm_num [ggml_vec_dot_f32, s2A, s2B, List.range_succ]

/-- Claim C1, counterexample: with a 1-D `a` (length-2 vector) and a 2-D
`b` (3 rows of length 2), `ggml_can_mul_mat` holds, yet the result of
`ggml_mul_mat` does *not* have `ne[1] = b.ne[1] = 3`: the rank of the
result is `min(a.n_dims, b.n_dims) = 1`, so `ne[1]` stays 1. -/
theorem mul_mat_claimed_shape_fails :
    ggml_can_mul_mat (getT rankMismatchPool 0) (getT rankMismatchPool 1) ∧
    (getT rankMismatchPool 1).ne1 = 3 ∧
    (getT (ggml_mul_mat rankMismatchPool 0 1).1
      (ggml_mul_mat rankMismatchPool 0 1).2).ne1 ≠ 3 := by
  refine ⟨by decide, by decide, ?_⟩
  obtain ⟨-, -, -, -, h, -⟩ := ggml_mul_mat_result_shape rankMismatchPool 0 1
  rw [h]; decide

/-- Claim C1 (amended): under `can-mul-mat`, `ggml_mul_mat` returns an
`F32` tensor of rank `min(a.n_dims, b.n_dims)` whose extents are
`{a.ne[1], b.ne[1], a.ne[2], b.ne[3]}` for the first `n_dims` positions
and 1 beyond — the full claimed shape whenever the trailing claimed
extents are 1, e.g. for equal-rank operands; the forward MUL_MAT kernel
(non-BLAS, row-major `src0`) stores into `dst[i0, i1, i2, i3]` the dot
product of row `i0` of `a` and row `i1` of `b`; and the S2 scenario
yields `[[1,4],[2,5],[3,6],[6,15]]`. -/
theorem mul_mat_shape_kernel_s2 :
    (∀ p a b, ggml_can_mul_mat (getT p a) (getT p b) →
      (getT (ggml_mul_mat p a b).1 (ggml_mul_mat p a b).2).type = .F32 ∧
      (getT (ggml_mul_mat p a b).1 (ggml_mul_mat p a b).2).n_dims =
        min (getT p a).n_dims (getT p b).n_dims ∧
      (getT (ggml_mul_mat p a b).1 (ggml_mul_mat p a b).2).ne0 =
        (if 0 < min (getT p a).n_dims (getT p b).n_dims then (getT p a).ne1 else 1) ∧
      (getT (ggml_mul_mat p a b).1 (ggml_mul_mat p a b).2).ne1 =
        (if 1 < min (getT p a).n_dims (getT p b).n_dims then (getT p b).ne1 else 1) ∧
      (getT (ggml_mul_mat p a b).1 (ggml_mul_mat p a b).2).ne2 =
        (if 2 < min (getT p a).n_dims (getT p b).n_dims then (getT p a).ne2 else 1) ∧
      (getT (ggml_mul_mat p a b).1 (ggml_mul_mat p a b).2).ne3 =
        (if 3 < min (getT p a).n_dims (getT p b).n_dims then (getT p b).ne3 else 1)) ∧
    (∀ ne00 ne01 ne02 ne03 ne11 src0 src1 dst0 i0 i1 i2 i3,
      i0 < ne01 → i1 < ne11 → i2 < ne02 → i3 < ne03 →
      ggml_compute_forward_mul_mat_f32 ne00 ne01 ne02 ne03 ne11 src0 src1 dst0
        (i0, i1, i2, i3) =
        ggml_vec_dot_f32 ne00 (fun k => src0 (k, i0, i2, i3))
          (fun k => src1 (k, i1, i2, i3))) ∧
    s2Out = [[1, 4], [2, 5], [3, 6], [6, 15]] := by
  refine ⟨fun p a b _ => ?_, ?_, s2_value⟩
  · obtain ⟨h1, -, h3, h4, h5, h6, h7⟩ := ggml_mul_mat_result_shape p a b
    exact ⟨h1, h3, h4, h5, h6, h7⟩
  · intro ne00 ne01 ne02 ne03 ne11 src0 src1 dst0 i0 i1 i2 i3 h0 h1 h2 h3
    exact mul_mat_kernel_dot ne00 ne01 ne02 ne03 ne11 src0 src1 dst0 i0 i1 i2 i3 h0 h1 h2 h3

/-- Witness for claim C1: the S2 shapes give an `F32` 2×4 result
(`ne0 = 2`, `ne1 = 4`), and the kernel evaluates `dst[0, 3]` of S2 to
`dot([1,2,3], [1,1,1]) = 6`. -/
theorem mul_mat_shape_kernel_s2_witness :
    ((getT (ggml_mul_mat mmPool 0 1).1 (ggml_mul_mat mmPool 0 1).2).type = GgmlType.F32 ∧
     (getT (ggml_mul_mat mmPool 0 1).1 (ggml_mul_mat mmPool 0 1).2).ne0 = 2 ∧
     (getT (ggml_mul_mat mmPool 0 1).1 (ggml_mul_mat mmPool 0 1).2).ne1 = 4) ∧
    ggml_compute_forward_mul_mat_f32 3 2 1 1 4 s2A s2B (fun _ => 0) (0, 3, 0, 0) = 6 := by
  obtain ⟨hshape, hker, -⟩ := mul_mat_shape_kernel_s2
  obtain ⟨ht, -, hne0, hne1, -, -⟩ := hshape mmPool 0 1 (by decide)
  refine ⟨⟨ht, ?_, ?_⟩, ?_⟩
  · rw [hne0]; decide
  · rw [hne1]; decide
  · rw [hker 3 2 1 1 4 s2A s2B (fun _ => 0) 0 3 0 0 (by norm_num) (by norm_num)
      Nat.one_pos Nat.one_pos]
    norm_num [ggml_vec_dot_f32, s2A, s2B, List.range_succ]

/-! ### SOFT_MAX lemmas. -/

theorem foldl_omax_some (row : List (Option ℚ)) (a : ℚ) :
    ∃ μ, row.foldl omax (some a) = some μ ∧ (μ = a ∨ some μ ∈ row) ∧
      a ≤ μ ∧ ∀ v, some v ∈ row → v ≤ μ := by
  induction row generalizing a with
  | nil => exact ⟨a, rfl, Or.inl rfl, le_refl a, by simp⟩
  | cons x rest ih =>
    cases x with
    | none =>
      obtain ⟨μ, h1, h2, h3, h4⟩ := ih a
      refine ⟨μ, h1, ?_, h3, ?_⟩
      · rcases h2 with h | h
        · exact Or.inl h
        · exact Or.inr (List.mem_cons_of_mem _ h)
      · intro v hv
        rcases List.mem_cons.mp hv with h | h
        · cases h
        · exact h4 v h
    | some b =>
      obtain ⟨μ, h1, h2, h3, h4⟩ := ih (max a b)
      refine ⟨μ, h1, ?_, le_trans (le_max_left a b) h3, ?_⟩
      · rcases h2 with h | h
        · rcases max_cases a b with ⟨hm, -⟩ | ⟨hm, -⟩
          · exact Or.inl (h.trans hm)
          · exact Or.inr (List.mem_cons.mpr (Or.inl (by rw [h, hm])))
        · exact Or.inr (List.mem_cons_of_mem _ h)
      · intro v hv
        rcases List.mem_cons.mp hv with h | h
        · have hvb : v = b := by injection h
          exact le_trans (hvb ▸ le_max_right a b) h3
        · exact h4 v h

theorem foldl_omax_attained (row : List (Option ℚ)) (hne : ∃ v, some v ∈ row) :
    ∃ μ, softmaxRowMax row = some μ ∧ some μ ∈ row ∧
      ∀ v, some v ∈ row → v ≤ μ := by
  induction row with
  | nil => simp at hne
  | cons x rest ih =>
    cases x with
    | none =>
      have hne' : ∃ v, some v ∈ rest := by
        obtain ⟨v, hv⟩ := hne
        rcases List.mem_cons.mp hv with h | h
        · cases h
        · exact ⟨v, h⟩
      obtain ⟨μ, h1, h2, h3⟩ := ih hne'
      refine ⟨μ, h1, List.mem_cons_of_mem _ h2, ?_⟩
      intro v hv
      rcases List.mem_cons.mp hv with h | h
      · cases h
      · exact h3 v h
    | some b =>
      obtain ⟨μ, h1, h2, h3, h4⟩ := foldl_omax_some rest b
      refine ⟨μ, h1, ?_, ?_⟩
      · rcases h2 with h | h
        · exact List.mem_cons.mpr (Or.inl (by rw [h]))
        · exact List.mem_cons_of_mem _ h
      · intro v hv
        rcases List.mem_cons.mp hv with h | h
        · obtain rfl : v = b := by injection h
          exact h3
        · exact h4 v h

theorem softmaxPass_fst_length (E : ℚ → ℚ) (mu : ℚ) (row : List (Option ℚ)) :
    (softmaxPass E mu row).1.length = row.length := by
  induction row with
  | nil => rfl
  | cons x rest ih => cases x <;> simp [softmaxPass, ih]

theorem softmaxPass_fst_sum (E : ℚ → ℚ) (mu : ℚ) (row : List (Option ℚ)) :
    (softmaxPass E mu row).1.sum = (softmaxPass E mu row).2 := by
  induction row with
  | nil => rfl
  | cons x rest ih =>
    cases x with
    | none => simp [softmaxPass, ih]
    | some b => simp [softmaxPass, ih]; ring

theorem softmaxPass_snd_nonneg (E : ℚ → ℚ) (mu : ℚ) (row : List (Option ℚ))
    (hE : ∀ x, x ≤ 0 → 0 ≤ E x) (hub : ∀ v, some v ∈ row → v ≤ mu) :
    0 ≤ (softmaxPass E mu row).2 := by
  induction row with
  | nil => exact le_refl 0
  | cons x rest ih =>
    have ih' := ih (fun v hv => hub v (List.mem_cons_of_mem _ hv))
    cases x with
    | none => simpa [softmaxPass] using ih'
    | some b =>
      have hb : b ≤ mu := hub b (List.mem_cons_self _ _)
      have : 0 ≤ E (b - mu) := hE _ (by linarith)
      simp only [softmaxPass]
      linarith

theorem softmaxPass_fst_nonneg (E : ℚ → ℚ) (mu : ℚ) (row : List (Option ℚ))
    (hE : ∀ x, x ≤ 0 → 0 ≤ E x) (hub : ∀ v, some v ∈ row → v ≤ mu) :
    ∀ y ∈ (softmaxPass E mu row).1, 0 ≤ y := by
  induction row with
  | nil => simp [softmaxPass]
  | cons x rest ih =>
    have ih' := ih (fun v hv => hub v (List.mem_cons_of_mem _ hv))
    cases x with
    | none =>
      intro y hy
      rcases List.mem_cons.mp hy with h | h
      · rw [h]
      · exact ih' y h
    | some b =>
      intro y hy
      rcases List.mem_cons.mp hy with h | h
      · have hb : b ≤ mu := hub b (List.mem_cons_self _ _)
        rw [h]; exact hE _ (by linarith)
      · exact ih' y h

theorem softmaxPass_snd_pos (E : ℚ → ℚ) (mu : ℚ) (row : List (Option ℚ))
    (hE0 : E 0 = 1) (hE : ∀ x, x ≤ 0 → 0 ≤ E x)
    (hub : ∀ v, some v ∈ row → v ≤ mu) (hmem : some mu ∈ row) :
    0 < (softmaxPass E mu row).2 := by
  induction row with
  | nil => simp at hmem
  | cons x rest ih =>
    have hub' : ∀ v, some v ∈ rest → v ≤ mu :=
      fun v hv => hub v (List.mem_cons_of_mem _ hv)
    have hsnn : 0 ≤ (softmaxPass E mu rest).2 :=
      softmaxPass_snd_nonneg E mu rest hE hub'
    rcases List.mem_cons.mp hmem with h | h
    · rw [← h]
      simp only [softmaxPass, sub_self, hE0]
      linarith
    · cases x with
      | none => simpa [softmaxPass] using ih hub' h
      | some b =>
        have hb : b ≤ mu := hub b (List.mem_cons_self _ _)
        have hEb : 0 ≤ E (b - mu) := hE _ (by linarith)
        have := ih hub' h
        simp only [softmaxPass]
        linarith

theorem softmaxPass_none_entry (E : ℚ → ℚ) (mu : ℚ) (row : List (Option ℚ))
    (i : Nat) (h : row[i]? = some none) :
    (softmaxPass E mu row).1[i]? = some 0 := by
  induction row generalizing i with
  | nil => simp at h
  | cons x rest ih =>
    cases i with
    | zero =>
      obtain rfl : x = none := by simpa using h
      simp [softmaxPass]
    | succ j =>
      have h' : rest[j]? = some none := by simpa using h
      cases x <;> simpa [softmaxPass] using ih j h'

/-- Claim C2: for any row that is not all `-∞`, the SOFT_MAX kernel's
`assert(sum > 0.0f)` holds and the output row sums to exactly 1 (a
fortiori within `1e-4`), is entrywise non-negative — in particular the
division is by a strictly positive number, so no NaN arises — has the
input's length, and maps every `-∞` entry to 0.  `E` abstracts the
FP16-table exponential; the two hypotheses on `E` hold for the real
table. -/
theorem soft_max_row_normalizes (E : ℚ → ℚ) (row : List (Option ℚ))
    (hE0 : E 0 = 1) (hE : ∀ x, x ≤ 0 → 0 ≤ E x)
    (hrow : ∃ v, some v ∈ row) :
    ∃ out, ggml_compute_forward_soft_max_row E row = some out ∧
      out.sum = 1 ∧ (∀ y ∈ out, 0 ≤ y) ∧ out.length = row.length ∧
      ∀ i : Nat, row[i]? = some none → out[i]? = some 0 := by
  obtain ⟨μ, hmax, hmem, hub⟩ := foldl_omax_attained row hrow
  have hpos : 0 < (softmaxPass E μ row).2 :=
    softmaxPass_snd_pos E μ row hE0 hE hub hmem
  have hne : (softmaxPass E μ row).2 ≠ 0 := ne_of_gt hpos
  have hmu : (softmaxRowMax row).getD 0 = μ := by rw [hmax]; rfl
  refine ⟨(softmaxPass E μ row).1.map (fun v => v * (1 / (softmaxPass E μ row).2)),
    ?_, ?_, ?_, ?_, ?_⟩
  · unfold ggml_compute_forward_soft_max_row
    rw [hmu, if_pos hpos]
  · rw [List.sum_map_mul_right]
    simp only [List.map_id']
    rw [softmaxPass_fst_sum]
    field_simp
  · intro y hy
    obtain ⟨v, hv, rfl⟩ := List.mem_map.mp hy
    have h1 : (0:ℚ) ≤ v := softmaxPass_fst_nonneg E μ row hE hub v hv
    have h2 : (0:ℚ) ≤ 1 / (softmaxPass E μ row).2 := by positivity
    exact mul_nonneg h1 h2
  · rw [List.length_map, softmaxPass_fst_length]
  · intro i hi
    rw [List.getElem?_map, softmaxPass_none_entry E μ row i hi]
    simp

/-- Witness for claim C2 at the concrete row `[0, -∞]` with the constant-1
table function. -/
theorem soft_max_row_normalizes_witness :
    ∃ out, ggml_compute_forward_soft_max_row (fun _ => 1) [some 0, none] = some out ∧
      out.sum = 1 ∧ (∀ y ∈ out, 0 ≤ y) ∧ out.length = 2 ∧
      ∀ i : Nat, [some (0:ℚ), none][i]? = some none → out[i]? = some 0 := by
  obtain ⟨out, h1, h2, h3, h4, h5⟩ :=
    soft_max_row_normalizes (fun _ => 1) [some 0, none] rfl
      (fun _ _ => zero_le_one) ⟨0, by simp⟩
  exact ⟨out, h1, h2, h3, h4, h5⟩

/-! ### ROPE lemmas. -/

/-- The mode-0 ROPE kernel rotates each in-range even/odd pair of `src`
by the angle `(n_past + i2) * thetaF n_dims i0`, over any commutative ring
with abstract `cos`/`sin`/`theta`. -/
theorem rope_kernel_rotates {R : Type} [CommRing R] (cosF sinF : R → R)
    (thetaF : Nat → Nat → R) (n_past n_dims ne1 ne2 ne3 : Nat)
    (src : Idx4 → R) (i1 i2 i3 m : Nat)
    (h1 : i1 < ne1) (h2 : i2 < ne2) (h3 : i3 < ne3) (hm : 2 * m < n_dims) :
    ggml_compute_forward_rope_f32 cosF sinF thetaF n_past n_dims 0 ne1 ne2 ne3
        src (2 * m, i1, i2, i3) =
      src (2 * m, i1, i2, i3) *
          cosF (((n_past + i2 : Nat) : R) * thetaF n_dims (2 * m)) -
        src (2 * m + 1, i1, i2, i3) *
          sinF (((n_past + i2 : Nat) : R) * thetaF n_dims (2 * m)) ∧
    ggml_compute_forward_rope_f32 cosF sinF thetaF n_past n_dims 0 ne1 ne2 ne3
        src (2 * m + 1, i1, i2, i3) =
      src (2 * m, i1, i2, i3) *
          sinF (((n_past + i2 : Nat) : R) * thetaF n_dims (2 * m)) +
        src (2 * m + 1, i1, i2, i3) *
          cosF (((n_past + i2 : Nat) : R) * thetaF n_dims (2 * m)) := by
  have hm' : m < (n_dims + 1) / 2 := by omega
  have hmem : ∀ w ∈ ropeWrites cosF sinF thetaF n_past n_dims 0 ne1 ne2 ne3 src,
      ∃ i3' i2' i1' m', i3' < ne3 ∧ i2' < ne2 ∧ i1' < ne1 ∧ m' < (n_dims + 1) / 2 ∧
        (w = ((2 * m', i1', i2', i3'),
          src (2 * m', i1', i2', i3') *
              cosF (((n_past + i2' : Nat) : R) * thetaF n_dims (2 * m')) -
            src (2 * m' + 1, i1', i2', i3') *
              sinF (((n_past + i2' : Nat) : R) * thetaF n_dims (2 * m'))) ∨
         w = ((2 * m' + 1, i1', i2', i3'),
          src (2 * m', i1', i2', i3') *
              sinF (((n_past + i2' : Nat) : R) * thetaF n_dims (2 * m')) +
            src (2 * m' + 1, i1', i2', i3') *
              cosF (((n_past + i2' : Nat) : R) * thetaF n_dims (2 * m')))) := by
    intro w hw
    simp only [ropeWrites, eq_self_iff_true, if_true, Nat.sub_zero, zero_add,
        List.range'_eq_map_range,
      List.mem_flatMap, List.mem_map, List.mem_range, List.mem_cons,
      List.not_mem_nil, or_false] at hw
    obtain ⟨i3', h3', i2', ⟨j2, hj2, rfl⟩, i1', h1', m', hm'', hw⟩ := hw
    exact ⟨i3', j2, i1', m', h3', by omega, h1', hm'', by
      simpa using hw⟩
  have hin : ∀ (m' i1' i2' i3' : Nat), i3' < ne3 → i2' < ne2 → i1' < ne1 →
      m' < (n_dims + 1) / 2 →
      (((2 * m' : Nat), i1', i2', i3'),
        src (2 * m', i1', i2', i3') *
            cosF (((n_past + i2' : Nat) : R) * thetaF n_dims (2 * m')) -
          src (2 * m' + 1, i1', i2', i3') *
            sinF (((n_past + i2' : Nat) : R) * thetaF n_dims (2 * m'))) ∈
        ropeWrites cosF sinF thetaF n_past n_dims 0 ne1 ne2 ne3 src ∧
      (((2 * m' + 1 : Nat), i1', i2', i3'),
        src (2 * m', i1', i2', i3') *
            sinF (((n_past + i2' : Nat) : R) * thetaF n_dims (2 * m')) +
          src (2 * m' + 1, i1', i2', i3') *
            cosF (((n_past + i2' : Nat) : R) * thetaF n_dims (2 * m'))) ∈
        ropeWrites cosF sinF thetaF n_past n_dims 0 ne1 ne2 ne3 src := by
    intro m' i1' i2' i3' h3' h2' h1' hm''
    constructor <;>
    · simp only [ropeWrites, eq_self_iff_true, if_true, Nat.sub_zero, zero_add,
        List.range'_eq_map_range,
        List.mem_flatMap, List.mem_map, List.mem_range, List.mem_cons,
        List.not_mem_nil, or_false]
      refine ⟨i3', h3', i2', ⟨i2', h2', rfl⟩, i1', h1', m', hm'', ?_⟩
      simp
  constructor
  · apply applyWrites_uniq
    · exact (hin m i1 i2 i3 h3 h2 h1 hm').1
    · intro w hw hk
      obtain ⟨i3', i2', i1', m', h3', h2', h1', hm'', hw | hw⟩ := hmem w hw <;>
        subst hw <;> simp only [Prod.mk.injEq] at hk ⊢
      · obtain ⟨ha, hb, hc, hd⟩ := hk
        obtain rfl : m' = m := by omega
        exact ⟨⟨rfl, hb, hc, hd⟩, by rw [hb, hc, hd]⟩
      · obtain ⟨ha, -, -, -⟩ := hk
        omega
  · apply applyWrites_uniq
    · exact (hin m i1 i2 i3 h3 h2 h1 hm').2
    · intro w hw hk
      obtain ⟨i3', i2', i1', m', h3', h2', h1', hm'', hw | hw⟩ := hmem w hw <;>
        subst hw <;> simp only [Prod.mk.injEq] at hk ⊢
      · obtain ⟨ha, -, -, -⟩ := hk
        omega
      · obtain ⟨ha, hb, hc, hd⟩ := hk
        obtain rfl : m' = m := by omega
        exact ⟨⟨rfl, hb, hc, hd⟩, by rw [hb, hc, hd]⟩

/-- Claim C7: in the forward ROPE kernel with `mode = 0`, for each row at
position `p = n_past + i2` and each even index `i0 = 2m` in `[0, n_dims)`,
the pair `(x[i0], x[i0+1])` is rotated by the angle
`p * 10000^(-i0/n_dims)`: `dst[i0] = x[i0]·cos(p·θ) − x[i0+1]·sin(p·θ)`
and `dst[i0+1] = x[i0]·sin(p·θ) + x[i0+1]·cos(p·θ)`. -/
theorem rope_mode0_rotation (n_past n_dims ne1 ne2 ne3 : Nat)
    (src : Idx4 → ℝ) (i1 i2 i3 m : Nat)
    (h1 : i1 < ne1) (h2 : i2 < ne2) (h3 : i3 < ne3) (hm : 2 * m < n_dims) :
    ggml_compute_forward_rope_f32 Real.cos Real.sin
        (fun nd i0 => (10000 : ℝ) ^ (-(i0 : ℝ) / (nd : ℝ))) n_past n_dims 0
        ne1 ne2 ne3 src (2 * m, i1, i2, i3) =
      src (2 * m, i1, i2, i3) *
          Real.cos (((n_past + i2 : Nat) : ℝ) *
            (10000 : ℝ) ^ (-((2 * m : Nat) : ℝ) / (n_dims : ℝ))) -
        src (2 * m + 1, i1, i2, i3) *
          Real.sin (((n_past + i2 : Nat) : ℝ) *
            (10000 : ℝ) ^ (-((2 * m : Nat) : ℝ) / (n_dims : ℝ))) ∧
    ggml_compute_forward_rope_f32 Real.cos Real.sin
        (fun nd i0 => (10000 : ℝ) ^ (-(i0 : ℝ) / (nd : ℝ))) n_past n_dims 0
        ne1 ne2 ne3 src (2 * m + 1, i1, i2, i3) =
      src (2 * m, i1, i2, i3) *
          Real.sin (((n_past + i2 : Nat) : ℝ) *
            (10000 : ℝ) ^ (-((2 * m : Nat) : ℝ) / (n_dims : ℝ))) +
        src (2 * m + 1, i1, i2, i3) *
          Real.cos (((n_past + i2 : Nat) : ℝ) *
            (10000 : ℝ) ^ (-((2 * m : Nat) : ℝ) / (n_dims : ℝ))) :=
  rope_kernel_rotates Real.cos Real.sin
    (fun nd i0 => (10000 : ℝ) ^ (-(i0 : ℝ) / (nd : ℝ))) n_past n_dims ne1 ne2
    ne3 src i1 i2 i3 m h1 h2 h3 hm

/-- Witness for claim C7, scenario S4: `n_past = 0`, `n_dims = 2`,
`mode = 0`, one row `[1, 0]` at positions 0 and 1: unchanged at position
0, and `[cos 1, sin 1]` at position 1. -/
theorem rope_mode0_rotation_witness :
    ggml_compute_forward_rope_f32 Real.cos Real.sin
        (fun nd i0 => (10000 : ℝ) ^ (-(i0 : ℝ) / (nd : ℝ))) 0 2 0 1 2 1
        (fun q => if q.1 = 0 then (1 : ℝ) else 0) (2 * 0, 0, 0, 0) = 1 ∧
    ggml_compute_forward_rope_f32 Real.cos Real.sin
        (fun nd i0 => (10000 : ℝ) ^ (-(i0 : ℝ) / (nd : ℝ))) 0 2 0 1 2 1
        (fun q => if q.1 = 0 then (1 : ℝ) else 0) (2 * 0 + 1, 0, 0, 0) = 0 ∧
    ggml_compute_forward_rope_f32 Real.cos Real.sin
        (fun nd i0 => (10000 : ℝ) ^ (-(i0 : ℝ) / (nd : ℝ))) 0 2 0 1 2 1
        (fun q => if q.1 = 0 then (1 : ℝ) else 0) (2 * 0, 0, 1, 0) = Real.cos 1 ∧
    ggml_compute_forward_rope_f32 Real.cos Real.sin
        (fun nd i0 => (10000 : ℝ) ^ (-(i0 : ℝ) / (nd : ℝ))) 0 2 0 1 2 1
        (fun q => if q.1 = 0 then (1 : ℝ) else 0) (2 * 0 + 1, 0, 1, 0) = Real.sin 1 := by
  obtain ⟨h0a, h0b⟩ := rope_mode0_rotation 0 2 1 2 1
    (fun q => if q.1 = 0 then (1 : ℝ) else 0) 0 0 0 0
    Nat.one_pos (by norm_num) Nat.one_pos (by norm_num)
  obtain ⟨h1a, h1b⟩ := rope_mode0_rotation 0 2 1 2 1
    (fun q => if q.1 = 0 then (1 : ℝ) else 0) 0 1 0 0
    Nat.one_pos (by norm_num) Nat.one_pos (by norm_num)
  refine ⟨?_, ?_, ?_, ?_⟩
  · rw [h0a]; norm_num
  · rw [h0b]; norm_num
  · rw [h1a]; norm_num [Real.rpow_zero]
  · rw [h1b]; norm_num [Real.rpow_zero]

/-! ### Graph-builder lemmas. -/

/-- The recursive case of `ggml_visit_parents`, rephrased: the six source
slots are visited in order via `visitListWith`. -/
theorem visit_succ_eq (p : Pool) (fuel node : Nat) (g : GGraph) :
    ggml_visit_parents p (fuel + 1) node g =
      if node ∈ g.nodes then g
      else if node ∈ g.leafs then g
      else
        let t := getT p node
        let g6 := visitListWith (fun s g' => ggml_visit_parents p fuel s g')
          (srcOpts t) g
        if t.op = GgmlOp.NONE ∧ t.grad = none then
          { g6 with leafs := g6.leafs ++ [node] }
        else
          { g6 with nodes := g6.nodes ++ [node], grads := g6.grads ++ [t.grad] } := by
  cases h0 : (getT p node).src0 <;> cases h1 : (getT p node).src1 <;>
    cases h2 : (getT p node).opt0 <;> cases h3 : (getT p node).opt1 <;>
    cases h4 : (getT p node).opt2 <;> cases h5 : (getT p node).opt3 <;>
    simp only [ggml_visit_parents, srcOpts, visitListWith, h0, h1, h2, h3, h4, h5]

theorem GExt_refl (g : GGraph) : GExt g g :=
  ⟨[], [], [], by simp, by simp, by simp⟩

theorem GExt_trans {g1 g2 g3 : GGraph} (h12 : GExt g1 g2) (h23 : GExt g2 g3) :
    GExt g1 g3 := by
  obtain ⟨ns, gs, ls, hn, hg, hl⟩ := h12
  obtain ⟨ns', gs', ls', hn', hg', hl'⟩ := h23
  exact ⟨ns ++ ns', gs ++ gs', ls ++ ls', by simp [hn', hn], by simp [hg', hg],
    by simp [hl', hl]⟩

theorem GExt_mem_nodes {g g' : GGraph} (h : GExt g g') {x : Nat}
    (hx : x ∈ g.nodes) : x ∈ g'.nodes := by
  obtain ⟨ns, -, -, hn, -, -⟩ := h
  rw [hn]; exact List.mem_append_left _ hx

theorem GExt_mem_leafs {g g' : GGraph} (h : GExt g g') {x : Nat}
    (hx : x ∈ g.leafs) : x ∈ g'.leafs := by
  obtain ⟨-, -, ls, -, -, hl⟩ := h
  rw [hl]; exact List.mem_append_left _ hx

theorem visitListWith_ext (f : Nat → GGraph → GGraph)
    (hf : ∀ s g, GExt g (f s g)) :
    ∀ (l : List (Option Nat)) (g : GGraph), GExt g (visitListWith f l g) := by
  intro l
  induction l with
  | nil => exact fun g => GExt_refl g
  | cons o rest ih =>
    intro g
    cases o with
    | none => exact ih g
    | some s => exact GExt_trans (hf s g) (ih (f s g))

theorem visitListWith_visits (f : Nat → GGraph → GGraph)
    (hext : ∀ s g', GExt g' (f s g'))
    (l : List (Option Nat))
    (hmem : ∀ s g', some s ∈ l → s ∈ (f s g').nodes ∨ s ∈ (f s g').leafs) :
    ∀ (g : GGraph) (s : Nat), some s ∈ l →
      s ∈ (visitListWith f l g).nodes ∨ s ∈ (visitListWith f l g).leafs := by
  induction l with
  | nil => intro g s hs; simp at hs
  | cons o rest ih =>
    intro g s hs
    cases o with
    | none =>
      have hs' : some s ∈ rest := by
        rcases List.mem_cons.mp hs with h | h
        · cases h
        · exact h
      exact ih (fun s' g' hs'' => hmem s' g' (List.mem_cons_of_mem _ hs'')) g s hs'
    | some s0 =>
      by_cases hsr : some s ∈ rest
      · exact ih (fun s' g' hs'' => hmem s' g' (List.mem_cons_of_mem _ hs'')) (f s0 g) s hsr
      · have hss0 : s = s0 := by
          rcases List.mem_cons.mp hs with h | h
          · injection h
          · exact absurd h hsr
        subst hss0
        have h1 := hmem s g (List.mem_cons_self _ _)
        have h2 : GExt (f s g) (visitListWith f rest (f s g)) :=
          visitListWith_ext f hext rest (f s g)
        rcases h1 with h | h
        · exact Or.inl (GExt_mem_nodes h2 h)
        · exact Or.inr (GExt_mem_leafs h2 h)

theorem visitListWith_bound (f : Nat → GGraph → GGraph) (P : Nat → Prop)
    (l : List (Option Nat))
    (hf : ∀ s, some s ∈ l →
      (∀ g' x, x ∈ (f s g').nodes → x ∈ g'.nodes ∨ P x) ∧
      (∀ g' x, x ∈ (f s g').leafs → x ∈ g'.leafs ∨ P x)) :
    ∀ (g : GGraph),
      (∀ x, x ∈ (visitListWith f l g).nodes → x ∈ g.nodes ∨ P x) ∧
      (∀ x, x ∈ (visitListWith f l g).leafs → x ∈ g.leafs ∨ P x) := by
  induction l with
  | nil => exact fun g => ⟨fun x hx => Or.inl hx, fun x hx => Or.inl hx⟩
  | cons o rest ih =>
    intro g
    have ih' := ih (fun s hs => hf s (List.mem_cons_of_mem _ hs))
    cases o with
    | none => exact ih' g
    | some s =>
      obtain ⟨hfn, hfl⟩ := hf s (List.mem_cons_self _ _)
      obtain ⟨hrn, hrl⟩ := ih' (f s g)
      constructor
      · intro x hx
        rcases hrn x hx with h | h
        · exact hfn g x h
        · exact Or.inr h
      · intro x hx
        rcases hrl x hx with h | h
        · exact hfl g x h
        · exact Or.inr h

theorem visitListWith_inv (p : Pool) (f : Nat → GGraph → GGraph)
    (l : List (Option Nat))
    (hf : ∀ s, some s ∈ l → ∀ g', GraphInv p g' → GraphInv p (f s g')) :
    ∀ (g : GGraph), GraphInv p g → GraphInv p (visitListWith f l g) := by
  induction l with
  | nil => exact fun g hg => hg
  | cons o rest ih =>
    intro g hg
    have ih' := ih (fun s hs => hf s (List.mem_cons_of_mem _ hs))
    cases o with
    | none => exact ih' g hg
    | some s => exact ih' (f s g) (hf s (List.mem_cons_self _ _) g hg)

theorem srcs_lt_of_wf {p : Pool} (hwf : PoolWF p) (node : Nat) :
    ∀ s, some s ∈ srcOpts (getT p node) → s < node := by
  intro s hs
  by_cases hn : node < p.length
  · exact hwf node hn s (List.mem_filterMap.mpr ⟨some s, hs, rfl⟩)
  · have hd : getT p node = {} :=
      List.getD_eq_default p _ (Nat.le_of_not_lt hn)
    rw [hd] at hs
    simp [srcOpts] at hs

theorem nodup_append_snoc {as bs : List Nat} {x : Nat}
    (h : (as ++ bs).Nodup) (ha : x ∉ as) (hb : x ∉ bs) :
    (as ++ (bs ++ [x])).Nodup := by
  rw [List.nodup_append] at h ⊢
  obtain ⟨h1, h2, h3⟩ := h
  refine ⟨h1, ?_, ?_⟩
  · rw [List.nodup_append]
    exact ⟨h2, List.nodup_singleton x, fun a hab hax => hb (by
      obtain rfl : a = x := by simpa using hax
      exact hab)⟩
  · intro a hab hax
    rcases List.mem_append.mp hax with h' | h'
    · exact h3 hab h'
    · obtain rfl : a = x := by simpa using h'
      exact ha hab

theorem nodup_snoc_append {as bs : List Nat} {x : Nat}
    (h : (as ++ bs).Nodup) (ha : x ∉ as) (hb : x ∉ bs) :
    ((as ++ [x]) ++ bs).Nodup := by
  rw [List.nodup_append] at h ⊢
  obtain ⟨h1, h2, h3⟩ := h
  refine ⟨?_, h2, ?_⟩
  · rw [List.nodup_append]
    exact ⟨h1, List.nodup_singleton x, fun a hab hax => ha (by
      obtain rfl : a = x := by simpa using hax
      exact hab)⟩
  · intro a hab hax
    rcases List.mem_append.mp hab with h' | h'
    · exact h3 h' hax
    · obtain rfl : a = x := by simpa using h'
      exact hb hax

theorem visit_ext (p : Pool) : ∀ (fuel node : Nat) (g : GGraph),
    GExt g (ggml_visit_parents p fuel node g) := by
  intro fuel
  induction fuel with
  | zero => intro node g; exact GExt_refl g
  | succ fuel ih =>
    intro node g
    rw [visit_succ_eq]
    by_cases hn : node ∈ g.nodes
    · simp only [if_pos hn]; exact GExt_refl g
    by_cases hl : node ∈ g.leafs
    · simp only [if_neg hn, if_pos hl]; exact GExt_refl g
    simp only [if_neg hn, if_neg hl]
    have hx : GExt g (visitListWith (fun s g' => ggml_visit_parents p fuel s g')
        (srcOpts (getT p node)) g) :=
      visitListWith_ext _ (fun s g' => ih s g') _ g
    split
    · exact GExt_trans hx ⟨[], [], [node], by simp, by simp, by simp⟩
    · exact GExt_trans hx ⟨[node], [(getT p node).grad], [], by simp, by simp, by simp⟩

theorem visit_mem (p : Pool) (fuel node : Nat) (g : GGraph) (hfuel : 0 < fuel) :
    node ∈ (ggml_visit_parents p fuel node g).nodes ∨
    node ∈ (ggml_visit_parents p fuel node g).leafs := by
  cases fuel with
  | zero => exact absurd hfuel (lt_irrefl 0)
  | succ fuel =>
    rw [visit_succ_eq]
    by_cases hn : node ∈ g.nodes
    · simp only [if_pos hn]; exact Or.inl hn
    by_cases hl : node ∈ g.leafs
    · simp only [if_neg hn, if_pos hl]; exact Or.inr hl
    simp only [if_neg hn, if_neg hl]
    split
    · right; simp
    · left; simp

theorem visit_bound (p : Pool) (hwf : PoolWF p) :
    ∀ (fuel node : Nat) (g : GGraph),
      (∀ x, x ∈ (ggml_visit_parents p fuel node g).nodes →
        x ∈ g.nodes ∨ x ≤ node) ∧
      (∀ x, x ∈ (ggml_visit_parents p fuel node g).leafs →
        x ∈ g.leafs ∨ x ≤ node) := by
  intro fuel
  induction fuel with
  | zero => exact fun node g => ⟨fun x hx => Or.inl hx, fun x hx => Or.inl hx⟩
  | succ fuel ih =>
    intro node g
    rw [visit_succ_eq]
    by_cases hn : node ∈ g.nodes
    · simp only [if_pos hn]
      exact ⟨fun x hx => Or.inl hx, fun x hx => Or.inl hx⟩
    by_cases hl : node ∈ g.leafs
    · simp only [if_neg hn, if_pos hl]
      exact ⟨fun x hx => Or.inl hx, fun x hx => Or.inl hx⟩
    simp only [if_neg hn, if_neg hl]
    have hsrc : ∀ s, some s ∈ srcOpts (getT p node) → s < node :=
      srcs_lt_of_wf hwf node
    have hb := visitListWith_bound (fun s g' => ggml_visit_parents p fuel s g')
      (fun x => x < node) (srcOpts (getT p node))
      (fun s hs =>
        ⟨fun g' x hx => ((ih s g').1 x hx).imp_right
            (fun h => lt_of_le_of_lt h (hsrc s hs)),
          fun g' x hx => ((ih s g').2 x hx).imp_right
            (fun h => lt_of_le_of_lt h (hsrc s hs))⟩) g
    split
    · constructor
      · intro x hx
        exact ((hb.1 x hx).imp_right fun h => Nat.le_of_lt h)
      · intro x hx
        rcases List.mem_append.mp hx with h | h
        · exact ((hb.2 x h).imp_right fun h' => Nat.le_of_lt h')
        · obtain rfl : x = node := by simpa using h
          exact Or.inr (le_refl x)
    · constructor
      · intro x hx
        rcases List.mem_append.mp hx with h | h
        · exact ((hb.1 x h).imp_right fun h' => Nat.le_of_lt h')
        · obtain rfl : x = node := by simpa using h
          exact Or.inr (le_refl x)
      · intro x hx
        exact ((hb.2 x hx).imp_right fun h => Nat.le_of_lt h)

theorem visit_inv (p : Pool) (hwf : PoolWF p) :
    ∀ (fuel node : Nat) (g : GGraph), node < fuel → GraphInv p g →
      GraphInv p (ggml_visit_parents p fuel node g) := by
  intro fuel
  induction fuel with
  | zero => intro node g h _; exact absurd h (Nat.not_lt_zero node)
  | succ fuel ih =>
    intro node g hnode hInv
    rw [visit_succ_eq]
    by_cases hn : node ∈ g.nodes
    · simpa only [if_pos hn] using hInv
    by_cases hl : node ∈ g.leafs
    · simpa only [if_neg hn, if_pos hl] using hInv
    simp only [if_neg hn, if_neg hl]
    have hsrc : ∀ s, some s ∈ srcOpts (getT p node) → s < node :=
      srcs_lt_of_wf hwf node
    have hInv6 : GraphInv p (visitListWith
        (fun s g' => ggml_visit_parents p fuel s g') (srcOpts (getT p node)) g) :=
      visitListWith_inv p _ _
        (fun s hs g' hg' => ih s g' (by have := hsrc s hs; omega) hg') g hInv
    have hvis : ∀ s, some s ∈ srcOpts (getT p node) →
        s ∈ (visitListWith (fun s g' => ggml_visit_parents p fuel s g')
          (srcOpts (getT p node)) g).nodes ∨
        s ∈ (visitListWith (fun s g' => ggml_visit_parents p fuel s g')
          (srcOpts (getT p node)) g).leafs :=
      visitListWith_visits _ (fun s g' => visit_ext p fuel s g') _
        (fun s g' hs => visit_mem p fuel s g' (by have := hsrc s hs; omega)) g
    have hb := visitListWith_bound (fun s g' => ggml_visit_parents p fuel s g')
      (fun x => x < node) (srcOpts (getT p node))
      (fun s hs =>
        ⟨fun g' x hx => ((visit_bound p hwf fuel s g').1 x hx).imp_right
            (fun h => lt_of_le_of_lt h (hsrc s hs)),
          fun g' x hx => ((visit_bound p hwf fuel s g').2 x hx).imp_right
            (fun h => lt_of_le_of_lt h (hsrc s hs))⟩) g
    have hn6 : node ∉ (visitListWith (fun s g' => ggml_visit_parents p fuel s g')
        (srcOpts (getT p node)) g).nodes := by
      intro hx
      rcases hb.1 node hx with h | h
      · exact hn h
      · omega
    have hl6 : node ∉ (visitListWith (fun s g' => ggml_visit_parents p fuel s g')
        (srcOpts (getT p node)) g).leafs := by
      intro hx
      rcases hb.2 node hx with h | h
      · exact hl h
      · omega
    by_cases hleaf : (getT p node).op = GgmlOp.NONE ∧ (getT p node).grad = none
    · simp only [if_pos hleaf]
      refine ⟨nodup_append_snoc hInv6.1 hn6 hl6, ?_⟩
      intro k hk s hs
      exact (hInv6.2 k hk s hs).imp_right (List.mem_append_left _)
    · simp only [if_neg hleaf]
      refine ⟨nodup_snoc_append hInv6.1 hn6 hl6, ?_⟩
      intro k hk s hs
      simp only [List.length_append, List.length_singleton] at hk
      by_cases hklen : k < (visitListWith
          (fun s g' => ggml_visit_parents p fuel s g')
          (srcOpts (getT p node)) g).nodes.length
      · rw [getD_append_lt _ _ _ hklen] at hs
        rw [List.take_append_of_le_length (Nat.le_of_lt hklen)]
        exact hInv6.2 k hklen s hs
      · have hkeq : k = (visitListWith
            (fun s g' => ggml_visit_parents p fuel s g')
            (srcOpts (getT p node)) g).nodes.length := by omega
        subst hkeq
        rw [getD_append_length] at hs
        rw [List.take_append_of_le_length (le_refl _), List.take_length]
        obtain ⟨o, ho,ho'⟩ := List.mem_filterMap.mp hs
        obtain rfl : o = some s := ho'
        exact hvis s ho

theorem visit_last (p : Pool) (fuel node : Nat) (g : GGraph)
    (hfuel : node < fuel) (hn : node ∉ g.nodes) (hl : node ∉ g.leafs)
    (hop : ¬((getT p node).op = GgmlOp.NONE ∧ (getT p node).grad = none)) :
    (ggml_visit_parents p fuel node g).nodes.getLast? = some node := by
  cases fuel with
  | zero => exact absurd hfuel (Nat.not_lt_zero node)
  | succ fuel =>
    rw [visit_succ_eq]
    simp only [if_neg hn, if_neg hl, if_neg hop]
    exact List.getLast?_concat _

/-- Claim C8 (amended): on a well-formed pool (sources strictly precede
their tensor, as the constructors guarantee), `ggml_build_forward` and
`ggml_build_forward_expand` produce graphs in which every handle appears
at most once in `nodes ++ leafs` and `nodes` is topologically ordered
(each source of `nodes[k]` lies at an earlier index of `nodes` or in
`leafs`); the root is the last node provided it is not a plain leaf
(i.e. it has an op or a gradient) and, when expanding, was not already
in the graph.  A plain-leaf root is recorded in `leafs`, leaving `nodes`
without it. -/
theorem build_forward_graph_inv (p : Pool) (hwf : PoolWF p) :
    (∀ root, GraphInv p (ggml_build_forward p root)) ∧
    (∀ root, ¬((getT p root).op = GgmlOp.NONE ∧ (getT p root).grad = none) →
      (ggml_build_forward p root).nodes.getLast? = some root) ∧
    (∀ root g0, GraphInv p g0 →
      GraphInv p (ggml_build_forward_expand p g0 root)) ∧
    (∀ root g0, root ∉ g0.nodes → root ∉ g0.leafs →
      ¬((getT p root).op = GgmlOp.NONE ∧ (getT p root).grad = none) →
      (ggml_build_forward_expand p g0 root).nodes.getLast? = some root) := by
  have hempty : GraphInv p { nodes := [], grads := [], leafs := [] } := by
    constructor
    · simp
    · intro k hk s hs
      simp at hk
  refine ⟨fun root => ?_, fun root hop => ?_, fun root g0 h0 => ?_,
    fun root g0 hn hl hop => ?_⟩
  · exact visit_inv p hwf (root + 1) root _ (Nat.lt_succ_self root) hempty
  · exact visit_last p (root + 1) root _ (Nat.lt_succ_self root)
      (by simp) (by simp) hop
  · exact visit_inv p hwf (root + 1) root g0 (Nat.lt_succ_self root) h0
  · exact visit_last p (root + 1) root g0 (Nat.lt_succ_self root) hn hl hop

/-- Claim C8, counterexample to the unamended claim: for a root that is a
plain leaf (no op, no gradient), `ggml_build_forward` leaves `nodes` empty
— the root is *not* the last node. -/
theorem build_forward_leaf_root_not_last :
    ¬((ggml_build_forward leafOnlyPool 0).nodes.getLast? = some 0) := by
  decide

/-- Witness for claim C8 on the concrete S5 forward pool: the invariant
holds and the root `f = sqr x` (handle 2) is the last node. -/
theorem build_forward_graph_inv_witness :
    GraphInv sqrPoolFwd (ggml_build_forward sqrPoolFwd 2) ∧
    (ggml_build_forward sqrPoolFwd 2).nodes.getLast? = some 2 := by
  have h := build_forward_graph_inv sqrPoolFwd (by decide)
  exact ⟨h.1 2, h.2.1 2 (by decide)⟩

end GgmlSpec
